import Mathlib

set_option maxHeartbeats 1000000
set_option autoImplicit false

/-! Verification development for the template-composition engine of the
    agent-starter-pack repository: a shallow embedding of
    `src/cli/utils/template.py`, `src/cli/commands/create.py` and
    `src/cli/utils/cicd.py`, with theorems about the layered copy passes,
    manifest loading and validation, lock-file handling, region
    substitution, project-name normalization and the GitHub-connection
    polling loop. -/

/-! ## String utilities mirroring the Python primitives used by the code -/

/-- Test that `pat` is a prefix of `s` (Python `str.startswith`), on char lists. -/
def leadsWith : List Char → List Char → Bool
  | _, [] => true
  | [], _ :: _ => false
  | a :: l1, b :: l2 => a == b && leadsWith l1 l2

/-- Test that `pat` occurs as a contiguous substring of `s` (Python `pat in s`). -/
def containsSeq : List Char → List Char → Bool
  | [], pat => pat.isEmpty
  | c :: rest, pat => leadsWith (c :: rest) pat || containsSeq rest pat

/-- Python `pat in s` on strings. -/
def strContainsSub (s pat : String) : Bool :=
  containsSeq s.data pat.data

/-- Python `s.startswith(pat)`. -/
def strLeads (s pat : String) : Bool :=
  leadsWith s.data pat.data

/-- The part of a path string after the last slash: `pathlib.PurePath.name`. -/
def lastComponent (s : String) : String :=
  String.mk ((s.data.reverse.takeWhile (fun c => !(c == '/'))).reverse)

/-- The extension of a file name, `pathlib` style: the piece of `name`
    starting at the last dot, provided that dot is neither the first nor the
    last character (CPython computes it with `name.rfind('.')` and the check
    `0 < i < len(name) - 1`). -/
def suffixOfName (name : String) : String :=
  let cs := name.data
  let n := cs.length
  match cs.reverse.findIdx? (fun c => c == '.') with
  | none => ""
  | some k =>
    let i := n - 1 - k
    if 0 < i ∧ i < n - 1 then String.mk (cs.drop i) else ""

/-- Split off everything before and after the first occurrence of `sep`
    (`none` when `sep` does not occur).  Helper for Python `str.split`. -/
def splitFirst : List Char → List Char → Option (List Char × List Char)
  | [], _ => none
  | c :: rest, sep =>
    if leadsWith (c :: rest) sep then some ([], (c :: rest).drop sep.length)
    else match splitFirst rest sep with
      | some (a, b) => some (c :: a, b)
      | none => none

/-- Fuel-indexed worker for `replaceAll`; fuel `s.length` is always enough
    because every step consumes at least one character of `s`. -/
def replaceAllGo (rep pat : List Char) : Nat → List Char → List Char
  | 0, s => s
  | _, [] => []
  | fuel + 1, c :: rest =>
    if !pat.isEmpty && leadsWith (c :: rest) pat then
      rep ++ replaceAllGo rep pat fuel ((c :: rest).drop pat.length)
    else
      c :: replaceAllGo rep pat fuel rest

/-- Python `s.replace(pat, rep)`: replace every non-overlapping occurrence of
    `pat`, scanning left to right.  (The code under verification never calls
    `replace` with an empty pattern; for an empty pattern this returns `s`.) -/
def replaceAll (s pat rep : String) : String :=
  String.mk (replaceAllGo rep.data pat.data s.data.length s.data)

/-! ## Filesystem model

A destination file system is a partial map from relative paths (lists of
path segments) to file contents.  A source directory tree is a concrete
inductive: `copy_files` in `template.py` walks the source recursively with
`src.iterdir()`, so the source must be a tree, while the destination is only
queried (`d.exists()`) and written (`shutil.copy2`), so a path-indexed map
is enough. -/

/-- Destination file-system state: contents of the file at each path. -/
def Fs : Type := List String → Option String

def emptyFs : Fs := fun _ => none

/-- Write one file (what a single `shutil.copy2` does to the state). -/
def fsSet (fs : Fs) (p : List String) (c : String) : Fs :=
  fun q => if q = p then some c else fs q

/-- The entries of a source directory: named files and named subdirectories,
    in iteration order. -/
inductive Dir where
  | empty : Dir
  | fileEntry (name : String) (content : String) (rest : Dir) : Dir
  | dirEntry (name : String) (sub : Dir) (rest : Dir) : Dir

/-- A source path handed to `copy_files`: either a single file or a directory. -/
inductive FsTree where
  | file (content : String) : FsTree
  | dir (d : Dir) : FsTree

/-- `should_exclude_path` of `template.py`: agent-specific exclusions,
    by substring test on the full path string. -/
def should_exclude_path (p : String) (agentName : String) : Bool :=
  if agentName = "multimodal_live_api" then
    strContainsSub p "tests/unit/test_utils" || strContainsSub p "app/utils"
  else false

/-- The `should_skip` closure inside `copy_files`: compiled bytecode
    (`path.suffix in [".pyc"]`), `__pycache__` anywhere in the path string or
    as the final component, and the agent-specific exclusions when an agent
    name was passed. -/
def should_skip (p : String) (agent : Option String) : Bool :=
  if suffixOfName (lastComponent p) == ".pyc" then true
  else if strContainsSub p "__pycache__" || lastComponent p == "__pycache__" then true
  else match agent with
    | some a => should_exclude_path p a
    | none => false

/-- The recursive walk of `copy_files` over a source directory `d` whose
    absolute path string is `sp`, copying into destination path `dst` of the
    file system `fs`.  For each entry: skipped entries are dropped, files are
    written when `overwrite` is set or the destination file does not exist,
    and subdirectories recurse (`mkdir` has no effect on the file map). -/
def copyDir (sp : String) (d : Dir) (dst : List String) (agent : Option String)
    (overwrite : Bool) (fs : Fs) : Fs :=
  match d with
  | .empty => fs
  | .fileEntry name c rest =>
    let p := sp ++ "/" ++ name
    let fs1 :=
      if should_skip p agent then fs
      else if overwrite || (fs (dst ++ [name])).isNone then fsSet fs (dst ++ [name]) c
      else fs
    copyDir sp rest dst agent overwrite fs1
  | .dirEntry name sub rest =>
    let p := sp ++ "/" ++ name
    let fs1 :=
      if should_skip p agent then fs
      else copyDir p sub (dst ++ [name]) agent overwrite fs
    copyDir sp rest dst agent overwrite fs1

/-- `copy_files(src, dst, agent_name, overwrite)` of `template.py`.  `sp` is
    the absolute path string of `src` (used by the skip predicate's substring
    tests), `t` its tree, `dst` the destination path relative to the modelled
    file-system root. -/
def copy_files (sp : String) (t : FsTree) (dst : List String)
    (agent : Option String) (overwrite : Bool) (fs : Fs) : Fs :=
  match t with
  | .dir d => copyDir sp d dst agent overwrite fs
  | .file c =>
    if !should_skip sp agent then
      if overwrite || (fs dst).isNone then fsSet fs dst c else fs
    else fs

/-- The file a `copy_files` call on directory `d` supplies at relative path
    `rel`: the content of the non-skipped source file there, where a later
    duplicate entry wins (matching the sequential copy order).  `none` when
    the source supplies nothing at `rel` (no such file, or it is skipped). -/
def providesDir (sp : String) (d : Dir) (agent : Option String)
    (rel : List String) : Option String :=
  match d with
  | .empty => none
  | .fileEntry name c rest =>
    match providesDir sp rest agent rel with
    | some c2 => some c2
    | none =>
      if rel = [name] then
        if should_skip (sp ++ "/" ++ name) agent then none else some c
      else none
  | .dirEntry name sub rest =>
    match providesDir sp rest agent rel with
    | some c2 => some c2
    | none =>
      match rel with
      | [] => none
      | r :: rs =>
        if r = name then
          if should_skip (sp ++ "/" ++ name) agent then none
          else providesDir (sp ++ "/" ++ name) sub agent rs
        else none

/-- `provides` lifted to an `FsTree` source. -/
def provides (sp : String) (t : FsTree) (agent : Option String)
    (rel : List String) : Option String :=
  match t with
  | .dir d => providesDir sp d agent rel
  | .file c =>
    match rel with
    | [] => if should_skip sp agent then none else some c
    | _ :: _ => none

/-- Last segment of a relative path. -/
def lastSeg : List String → Option String
  | [] => none
  | [s] => some s
  | _ :: l => lastSeg l

/-- Some segment of the path is `__pycache__`. -/
def hasPycacheSeg : List String → Bool
  | [] => false
  | s :: l => s == "__pycache__" || hasPycacheSeg l

/-- A relative path that the skip predicate must always reject: its file name
    has the `.pyc` suffix, or some segment is `__pycache__`. -/
def badRel (rel : List String) : Bool :=
  (match lastSeg rel with
   | some s => suffixOfName s == ".pyc"
   | none => false) || hasPycacheSeg rel

/-- Well-formed path segments: no segment contains a slash (true of every
    real directory entry name). -/
def validSegs : List String → Bool
  | [] => true
  | s :: l => s.data.all (fun c => !(c == '/')) && validSegs l

/-! ## YAML values and the manifest loader -/

/-- A YAML document as `yaml.safe_load` returns it: `None`, booleans,
    integers, strings, sequences, mappings (keys in the manifests are
    strings). -/
inductive YVal where
  | null : YVal
  | bool (b : Bool) : YVal
  | num (n : Int) : YVal
  | str (s : String) : YVal
  | list (l : List YVal) : YVal
  | map (m : List (String × YVal)) : YVal

/-- Python truthiness of a YAML value. -/
def truthy : YVal → Bool
  | .null => false
  | .bool b => b
  | .num n => n != 0
  | .str s => s != ""
  | .list l => !l.isEmpty
  | .map m => !m.isEmpty

/-- Errors the modelled code can raise. -/
inductive TErr where
  | valueError (msg : String) : TErr
  | fileNotFoundError (msg : String) : TErr
  | attributeError : TErr
  | typeError : TErr

/-- Python `v.get(k, d)`: mapping lookup with default; any non-mapping
    receiver has no `get` attribute and raises `AttributeError`. -/
def yGetD (v : YVal) (k : String) (d : YVal) : Except TErr YVal :=
  match v with
  | .map m => .ok ((List.lookup k m).getD d)
  | _ => .error .attributeError

/-- Python `x in v` for a string `x`: element test on sequences, key test on
    mappings, substring test on strings, `TypeError` otherwise. -/
def yvalMem (x : String) (v : YVal) : Except TErr Bool :=
  match v with
  | .list l => .ok (l.any (fun e => match e with | .str s => s == x | _ => false))
  | .map m => .ok (m.any (fun p => p.fst == x))
  | .str s => .ok (strContainsSub s x)
  | _ => .error .typeError

/-- Python `for e in v`: sequences yield elements, strings yield one-character
    strings, mappings yield keys, everything else raises `TypeError`. -/
def yIter (v : YVal) : Except TErr (List YVal) :=
  match v with
  | .list l => .ok l
  | .str s => .ok (s.data.map (fun c => .str (String.mk [c])))
  | .map m => .ok (m.map (fun p => .str p.fst))
  | _ => .error .typeError

/-- The state of the `.templateconfig.yaml` file of the chosen agent:
    missing, present but unreadable/unparsable, or parsed into a document. -/
inductive ManifestFile where
  | absent : ManifestFile
  | unreadable (msg : String) : ManifestFile
  | parsed (v : YVal) : ManifestFile

/-- `load_template_config` of `template.py`: `{}` when the file is missing,
    `{}` when reading or parsing raises (the exception is logged and
    swallowed), otherwise `config if config else {}` — a truthy document is
    returned as parsed, even when it is not a mapping. -/
def load_template_config (mf : ManifestFile) : YVal :=
  match mf with
  | .absent => .map []
  | .unreadable _ => .map []
  | .parsed v => if truthy v then v else .map []

/-- The `TemplateConfig` dataclass of `template.py` (fields hold whatever the
    YAML document contains at those keys). -/
structure TemplateConfig where
  name : YVal
  description : YVal
  settings : YVal

/-- `TemplateConfig.from_file`: the strict loader.  Every failure — unreadable
    file, YAML error, non-mapping document, missing required key — is
    re-raised as a `ValueError` (the except-blocks wrap all exceptions). -/
def TemplateConfig.from_file (mf : ManifestFile) : Except String TemplateConfig :=
  match mf with
  | .absent => .error "Error loading template config: file not found"
  | .unreadable e => .error ("Invalid YAML in template config: " ++ e)
  | .parsed v =>
    match v with
    | .map m =>
      if (["name", "description", "settings"].filter
            (fun f => (List.lookup f m).isNone)).isEmpty then
        .ok { name := (List.lookup "name" m).getD .null,
              description := (List.lookup "description" m).getD .null,
              settings := (List.lookup "settings" m).getD .null }
      else
        .error "Missing required fields in template config"
    | _ => .error "Invalid template config format"

/-- `config.get("settings", {}).get(k, d)`, the access pattern used all over
    `process_template`. -/
def yGetSettingsKey (cfg : YVal) (k : String) (d : YVal) : Except TErr YVal :=
  match yGetD cfg "settings" (.map []) with
  | .error e => .error e
  | .ok s => yGetD s k d

/-- `settings.deployment_targets` normalization: a plain string becomes a
    one-element list (`if isinstance(available_targets, str)`). -/
def normalizeTargets (v : YVal) : YVal :=
  match v with
  | .str s => .list [.str s]
  | _ => v

/-! ## The layered composer (`process_template`) -/

/-- Constants of `template.py`. -/
def OVERWRITE_FOLDERS : List String := ["app", "frontend", "tests", "notebooks"]

def DEPLOYMENT_FOLDERS : List String := ["cloud_run", "agent_engine"]

def DEFAULT_FRONTEND : String := "streamlit"

/-- The `cookiecutter.json` document `process_template` writes (step 8 of the
    composition): the default context for the rendering pass. -/
structure CookiecutterConfig where
  project_name : String
  agent_name : String
  agent_description : YVal
  deployment_target : String
  frontend_type : YVal
  extra_dependencies : List YVal
  otel_instrumentations : List (List String)
  data_ingestion : Bool
  copy_without_render : List String

/-- The `_copy_without_render` glob list written into `cookiecutter.json`. -/
def copyWithoutRenderList : List String :=
  ["*.ipynb", "*.json", "frontend/*", "tests/*", "notebooks/*", ".git/*",
   "__pycache__/*", "**/__pycache__/*", ".pytest_cache/*", ".venv/*",
   "*templates.py", "!*.py", "!Makefile", "!README.md"]

/-- Everything in the repository checkout and environment that
    `process_template` reads: the source trees of the five layers (each with
    its absolute path string, which the skip predicate inspects), the agent
    manifest, the precomputed lock files, and the rendering engine
    (cookiecutter), kept abstract as a function from the composed tree and
    its default context to the rendered project tree (`none` models
    cookiecutter not producing the expected output directory). -/
structure World where
  basePath : String
  baseTree : FsTree
  deployment : String → Option FsTree
  deployPath : String → String
  dataIngestionDir : Option FsTree
  dataIngestionPath : String
  frontends : String → Option FsTree
  frontendPath : String → String
  agentPathExists : Bool
  agentFolders : String → Option FsTree
  agentFolderPath : String → String
  agentReadme : Option String
  templateConfig : ManifestFile
  lockDir : String → Option String
  render : CookiecutterConfig → Fs → Option Fs

/-- Python truthiness of the `deployment_target: str | None` argument. -/
def dtTruthy (dt : Option String) : Bool :=
  match dt with
  | some s => s != ""
  | none => false

/-- `copy_data_ingestion_files`: copy the shared `data_ingestion` tree into
    the `data_ingestion/` subpath (no agent name is passed, hence no
    agent-specific exclusions); when the source directory is missing only a
    warning is logged. -/
def copy_data_ingestion_files (w : World) (fs : Fs) : Fs :=
  match w.dataIngestionDir with
  | some t => copy_files w.dataIngestionPath t ["data_ingestion"] none true fs
  | none => fs

/-- The `frontend_type or DEFAULT_FRONTEND` coercion at the top of
    `copy_frontend_files`, together with the subsequent use of the value as a
    path component: a falsy value falls back to the default, a truthy
    non-string raises `TypeError` when joined onto a path. -/
def coerceFrontend (v : YVal) : Except TErr String :=
  if truthy v then
    match v with
    | .str s => .ok s
    | _ => .error .typeError
  else .ok DEFAULT_FRONTEND

/-- `copy_frontend_files`: copy the chosen frontend tree directly onto the
    project root (no agent name), falling back to the default frontend when
    the requested one is missing.  The recursion of the source is unfolded
    once: the recursive call always receives `DEFAULT_FRONTEND` and therefore
    cannot recurse again. -/
def copy_frontend_files (w : World) (ft : String) (fs : Fs) : Fs :=
  match w.frontends ft with
  | some t => copy_files (w.frontendPath ft) t [] none true fs
  | none =>
    if ft ≠ DEFAULT_FRONTEND then
      match w.frontends DEFAULT_FRONTEND with
      | some t => copy_files (w.frontendPath DEFAULT_FRONTEND) t [] none true fs
      | none => fs
    else fs

/-- The loop of pass 5 over a list of folder names: copy the agent's folder
    of each name (when it exists) over the project, overwrite on. -/
def pass5Go (w : World) (agentName : String) (l : List String) (fs : Fs) : Fs :=
  l.foldl
    (fun acc folder =>
      match w.agentFolders folder with
      | some t => copy_files (w.agentFolderPath folder) t [folder]
          (some agentName) true acc
      | none => acc)
    fs

/-- Pass 5 of the composition: for each folder in `OVERWRITE_FOLDERS`, copy
    the agent's folder of that name over the project, overwrite on. -/
def pass5 (w : World) (agentName : String) (fs : Fs) : Fs :=
  pass5Go w agentName OVERWRITE_FOLDERS fs

/-- Steps 1–5 of `process_template` (lines 311–380 of `template.py`): base
    template, deployment-target overlay, optional data-ingestion module,
    frontend, agent override folders, agent README.  The only fallible parts
    are the `config.get(...).get(...)` chains (`AttributeError` on a truthy
    non-mapping manifest). -/
def composePasses (w : World) (agentName : String) (dt : Option String)
    (includeDataIngestion : Bool) : Except TErr Fs :=
  let fs1 := copy_files w.basePath w.baseTree [] (some agentName) true emptyFs
  let fs2 :=
    if dtTruthy dt && DEPLOYMENT_FOLDERS.contains (dt.getD "") then
      match w.deployment (dt.getD "") with
      | some t => copy_files (w.deployPath (dt.getD "")) t [] (some agentName) true fs1
      | none => fs1
    else fs1
  let cfg := load_template_config w.templateConfig
  match yGetSettingsKey cfg "requires_data_ingestion" (.bool false) with
  | .error e => .error e
  | .ok req =>
    let shouldDI := includeDataIngestion || truthy req
    let fs3 := if shouldDI then copy_data_ingestion_files w fs2 else fs2
    match yGetSettingsKey cfg "frontend_type" (.str DEFAULT_FRONTEND) with
    | .error e => .error e
    | .ok ftv =>
      match coerceFrontend ftv with
      | .error e => .error e
      | .ok ft =>
        let fs4 := copy_frontend_files w ft fs3
        let fs5 := if w.agentPathExists then pass5 w agentName fs4 else fs4
        let fs6 :=
          if w.agentPathExists then
            match w.agentReadme with
            | some c => fsSet fs5 ["agent_README.md"] c
            | none => fs5
          else fs5
        .ok fs6

/-- The validation block of `process_template` (lines 382–396): fail when the
    manifest could not be loaded, then fail when a truthy deployment target is
    not among the manifest's (normalized) `deployment_targets`. -/
def validateConfig (w : World) (dt : Option String) : Except TErr Unit :=
  let config := load_template_config w.templateConfig
  if truthy config = false then
    .error (.valueError "Could not load template config")
  else
    match yGetD config "settings" (.map []) with
    | .error e => .error e
    | .ok settings =>
      match yGetD settings "deployment_targets" (.list []) with
      | .error e => .error e
      | .ok av0 =>
        let av := normalizeTargets av0
        match dt with
        | some t =>
          if t = "" then .ok ()
          else
            match yvalMem t av with
            | .error e => .error e
            | .ok m =>
              if m then .ok ()
              else .error (.valueError ("Invalid deployment target " ++ t))
        | none => .ok ()

/-- `get_otel_instrumentations`: map known dependency substrings to
    instrumentation constants (dictionary order: `langgraph` before
    `crewai`). -/
def get_otel_instrumentations (dependencies : List YVal) :
    Except TErr (List (List String)) :=
  match dependencies.foldlM
      (fun (acc : List String) (dep : YVal) =>
        (match yvalMem "langgraph" dep with
        | .error e => .error e
        | .ok hasLg =>
          match yvalMem "crewai" dep with
          | .error e => .error e
          | .ok hasCr =>
            if hasLg || hasCr then
              .ok (acc ++ [if hasLg then "Instruments.LANGCHAIN" else "Instruments.CREW"])
            else .ok acc : Except TErr (List String)))
      [] with
  | .error e => .error e
  | .ok imports => .ok [imports]

/-- Lines 399–457 of `process_template`: reload the manifest, repeat the
    data-ingestion copy (the source performs this copy a second time, after
    the agent-override pass), then assemble the `cookiecutter.json` context
    (extra dependencies, OpenTelemetry instrumentations, frontend type,
    description, the copy-without-render globs). -/
def prepareRender (w : World) (agentName : String) (dt : Option String)
    (includeDataIngestion : Bool) (fs : Fs) :
    Except TErr (Fs × CookiecutterConfig) :=
  let cfg := load_template_config w.templateConfig
  match yGetSettingsKey cfg "requires_data_ingestion" (.bool false) with
  | .error e => .error e
  | .ok req =>
    let shouldDI := includeDataIngestion || truthy req
    let fs2 := if shouldDI then copy_data_ingestion_files w fs else fs
    match yGetSettingsKey cfg "extra_dependencies" (.list []) with
    | .error e => .error e
    | .ok deps =>
      match yIter deps with
      | .error e => .error e
      | .ok depList =>
        match get_otel_instrumentations depList with
        | .error e => .error e
        | .ok otel =>
          match yGetSettingsKey cfg "frontend_type" (.str DEFAULT_FRONTEND) with
          | .error e => .error e
          | .ok ftv =>
            match yGetD cfg "description" (.str "") with
            | .error e => .error e
            | .ok desc =>
              .ok (fs2,
                { project_name := "my-project"
                  agent_name := agentName
                  agent_description := desc
                  deployment_target := dt.getD ""
                  frontend_type := ftv
                  extra_dependencies := [deps]
                  otel_instrumentations := otel
                  data_ingestion := shouldDI
                  copy_without_render := copyWithoutRenderList })

/-- The name of the precomputed lock file for `(agent, deployment_target)`:
    `uv-{agent_name}-{deployment_target}.lock`, looked up in the fixed
    `src/resources/locks` directory. -/
def lockFileName (agentName deploymentTarget : String) : String :=
  "uv-" ++ agentName ++ "-" ++ deploymentTarget ++ ".lock"

/-- The placeholder project name that cookiecutter leaves in the lock file. -/
def lockPlaceholder : String := "\x7b\x7bcookiecutter.project_name\x7d\x7d"

/-- Lines 488–520 of `process_template`: when a deployment target was given,
    look the lock file up by name; raise `FileNotFoundError` when it is
    missing, otherwise copy it into the project as `uv.lock` and replace every
    occurrence of the placeholder project name with the real one. -/
def lockStage (w : World) (agentName projectName : String) (dt : Option String)
    (fsR : Fs) : Except TErr Fs :=
  if dtTruthy dt then
    match w.lockDir (lockFileName agentName (dt.getD "")) with
    | none =>
      .error (.fileNotFoundError ("Lock file not found: " ++
        lockFileName agentName (dt.getD "")))
    | some content =>
      .ok (fsSet fsR ["uv.lock"] (replaceAll content lockPlaceholder projectName))
  else .ok fsR

/-- `process_template` of `template.py`, as the sequence of its stages: the
    five copy passes, the manifest validation, the second data-ingestion copy
    plus `cookiecutter.json` assembly, the rendering pass (abstract; `none`
    models the generated project directory not being found, which the source
    converts into `FileNotFoundError`), and the lock-file stage on the moved
    output. -/
def process_template (w : World) (agentName projectName : String)
    (dt : Option String) (includeDataIngestion : Bool) : Except TErr Fs :=
  match composePasses w agentName dt includeDataIngestion with
  | .error e => .error e
  | .ok fs1 =>
    match validateConfig w dt with
    | .error e => .error e
    | .ok _ =>
      match prepareRender w agentName dt includeDataIngestion fs1 with
      | .error e => .error e
      | .ok pr =>
        match w.render pr.2 pr.1 with
        | none => .error (.fileNotFoundError "Generated project directory not found")
        | some fsR => lockStage w agentName projectName dt fsR

/-- A `try/finally` over an explicit state (here: the working directory):
    the finalizer runs on the state no matter whether the body succeeded or
    raised. -/
def tryFinallyState {σ α ε : Type} (body : σ → Except ε α × σ) (fin : σ → σ)
    (s : σ) : Except ε α × σ :=
  let r := body s
  (r.1, fin r.2)

/-- `process_template` together with its working-directory discipline:
    `os.chdir(temp_path)` at the start of the `try` body, and
    `os.chdir(original_dir)` in the `finally` block.  The pair is the
    body's outcome and the final working directory. -/
def process_template_run (w : World) (agentName projectName : String)
    (dt : Option String) (includeDataIngestion : Bool)
    (originalDir tempPath : String) : Except TErr Fs × String :=
  tryFinallyState
    (fun _cwd =>
      (process_template w agentName projectName dt includeDataIngestion, tempPath))
    (fun _ => originalDir)
    originalDir

/-! ## Post-processing: region substitution (`create.py`) -/

/-- The data-store-region token derived from the requested region's prefix
    (`replace_region_in_files`): `us*` → `us`, `europe*` → `eu`,
    otherwise `global`. -/
def dataStoreRegion (newRegion : String) : String :=
  if strLeads newRegion "us" then "us"
  else if strLeads newRegion "europe" then "eu"
  else "global"

/-- The allowed file extensions (and literal file names) of
    `replace_region_in_files`. -/
def allowedExtensions : List String :=
  [".md", ".py", ".tfvars", ".yaml", ".tf", ".yml", "Makefile", "makefile"]

/-- Directory names skipped by `replace_region_in_files`. -/
def skipDirs : List String := [".git", "__pycache__", "venv", ".venv", "node_modules"]

/-- Whether `replace_region_in_files` rewrites the file at path `parts`:
    no part is a skipped directory name, and the suffix or the file name is
    in the allowed set. -/
def fileEligible (parts : List String) : Bool :=
  let name := (lastSeg parts).getD ""
  !(skipDirs.any (fun d => parts.contains d)) &&
    (allowedExtensions.contains (suffixOfName name) || allowedExtensions.contains name)

/-- The loop body of `replace_region_in_files` on one file's text: replace the
    default region `us-central1` everywhere, then rewrite the first matching
    variant of the data-store-region key (an `if`/`elif` chain: at most one
    variant is rewritten per file). -/
def transformContent (newRegion : String) (content : String) : String :=
  let tok := dataStoreRegion newRegion
  let c1 :=
    if strContainsSub content "us-central1" then
      replaceAll content "us-central1" newRegion
    else content
  if strContainsSub c1 "data_store_region = \"us\"" then
    replaceAll c1 "data_store_region = \"us\"" ("data_store_region = \"" ++ tok ++ "\"")
  else if strContainsSub c1 "data_store_region=\"us\"" then
    replaceAll c1 "data_store_region=\"us\"" ("data_store_region=\"" ++ tok ++ "\"")
  else if strContainsSub c1 "data-store-region=\"us\"" then
    replaceAll c1 "data-store-region=\"us\"" ("data-store-region=\"" ++ tok ++ "\"")
  else if strContainsSub c1 "_DATA_STORE_REGION: us" then
    replaceAll c1 "_DATA_STORE_REGION: us" ("_DATA_STORE_REGION: " ++ tok)
  else c1

/-- `replace_region_in_files` over a project given as a list of
    `(path, text)` pairs (binary files that fail to decode are outside the
    model; the walk skips them without aborting). -/
def replace_region_in_files (project : List (List String × String))
    (newRegion : String) : List (List String × String) :=
  project.map (fun f =>
    if fileEligible f.1 then (f.1, transformContent newRegion f.2) else f)

/-! ## Project-name normalization (`create.py`) -/

/-- The ASCII uppercase letters. -/
def upperChars : List Char :=
  ['A', 'B', 'C', 'D', 'E', 'F', 'G', 'H', 'I', 'J', 'K', 'L', 'M',
   'N', 'O', 'P', 'Q', 'R', 'S', 'T', 'U', 'V', 'W', 'X', 'Y', 'Z']

/-- Python `char.isupper()` for the ASCII project names the CLI handles. -/
def pyIsUpper (c : Char) : Bool :=
  upperChars.any (fun x => x == c)

/-- Lower-case image of an ASCII uppercase letter. -/
def lowerTable (c : Char) : Char :=
  match c with
  | 'A' => 'a' | 'B' => 'b' | 'C' => 'c' | 'D' => 'd' | 'E' => 'e'
  | 'F' => 'f' | 'G' => 'g' | 'H' => 'h' | 'I' => 'i' | 'J' => 'j'
  | 'K' => 'k' | 'L' => 'l' | 'M' => 'm' | 'N' => 'n' | 'O' => 'o'
  | 'P' => 'p' | 'Q' => 'q' | 'R' => 'r' | 'S' => 's' | 'T' => 't'
  | 'U' => 'u' | 'V' => 'v' | 'W' => 'w' | 'X' => 'x' | 'Y' => 'y'
  | 'Z' => 'z'
  | other => other

/-- Python `str.lower()` on one character (ASCII fragment). -/
def pyToLower (c : Char) : Char :=
  if pyIsUpper c then lowerTable c else c

/-- Python `s.lower()` (ASCII fragment). -/
def strLower (s : String) : String :=
  String.mk (s.data.map pyToLower)

/-- `normalize_project_name` of `create.py`: when the name contains an
    upper-case character or an underscore, lower-case it (when it had an
    upper-case character) and then replace underscores with hyphens (when it
    still has any); otherwise return it unchanged. -/
def normalize_project_name (projectName : String) : String :=
  let needsNormalization :=
    projectName.data.any pyIsUpper || strContainsSub projectName "_"
  if needsNormalization then
    let n1 :=
      if projectName.data.any pyIsUpper then strLower projectName else projectName
    let n2 := if strContainsSub n1 "_" then replaceAll n1 "_" "-" else n1
    n2
  else projectName

/-! ## The GitHub-connection authorization wait (`cicd.py`) -/

/-- One poll of `gcloud builds connections describe`: either the subprocess
    failed, or it returned a document with an installation-state stage, an
    OAuth token secret version and an app installation id (each possibly
    missing from the JSON). -/
inductive PollR where
  | procError (msg : String) : PollR
  | parsed (stage : Option String) (oauthTokenSecretVersion : Option String)
      (appInstallationId : Option String) : PollR

/-- Errors of the polling loop. -/
inductive CicdErr where
  | processError (msg : String) : CicdErr
  | valueError (msg : String) : CicdErr
  | unexpectedStatus (stage : Option String) : CicdErr
  | timeoutError : CicdErr
  | indexError : CicdErr

/-- `max_retries = 30  # 5 minutes total with 10s sleep`. -/
def maxRetries : Nat := 30

/-- The fixed sleep between pending polls (`time.sleep(10)`). -/
def pollSleepSeconds : Nat := 10

/-- `oauth_token_secret_version.split("/secrets/")[1].split("/versions/")[0]`:
    the piece between the first two `/secrets/` separators (IndexError when
    `/secrets/` does not occur), cut before its first `/versions/`. -/
def extractSecretId (oauth : String) : Except CicdErr String :=
  match splitFirst oauth.data "/secrets/".data with
  | none => .error .indexError
  | some (_, after) =>
    let seg1 :=
      match splitFirst after "/secrets/".data with
      | some (a, _) => a
      | none => after
    let sid :=
      match splitFirst seg1 "/versions/".data with
      | some (a, _) => a
      | none => seg1
    .ok (String.mk sid)

/-- The wait loop of `create_github_connection`, over the sequence of poll
    results: `COMPLETE` extracts and returns the credentials, the two pending
    stages sleep and retry, any other stage raises, a subprocess failure
    raises, and exhausting the retries raises `TimeoutError`. -/
def pollLoop (polls : Nat → PollR) : Nat → Nat → Except CicdErr (String × String)
  | _, 0 => .error .timeoutError
  | attempt, remaining + 1 =>
    match polls attempt with
    | .procError m => .error (.processError m)
    | .parsed stage oauth appId =>
      if stage = some "COMPLETE" then
        if oauth.getD "" = "" ∨ appId.getD "" = "" then
          .error (.valueError
            "Could not find OAuth token secret version or app installation ID in connection details")
        else
          match extractSecretId (oauth.getD "") with
          | .error e => .error e
          | .ok sid => .ok (sid, appId.getD "")
      else if stage = some "PENDING_USER_OAUTH" ∨ stage = some "PENDING_INSTALL_APP" then
        pollLoop polls (attempt + 1) remaining
      else .error (.unexpectedStatus stage)

/-- The polling phase of `create_github_connection`: at most `maxRetries`
    polls starting from attempt 0. -/
def create_github_connection_wait (polls : Nat → PollR) :
    Except CicdErr (String × String) :=
  pollLoop polls 0 maxRetries

/-- A poll result is one of the two pending-authorization stages. -/
def isPending (r : PollR) : Prop :=
  ∃ o a, r = .parsed (some "PENDING_USER_OAUTH") o a ∨
         r = .parsed (some "PENDING_INSTALL_APP") o a

/-! ## Concrete fixtures used to exercise the model on closed inputs -/

/-- Whether a YAML value is a mapping. -/
def isYMap : YVal → Bool
  | .map _ => true
  | _ => false

/-- A world with fixed paths, no deployment overlays and no frontends,
    parametrized by the parts the individual scenarios vary. -/
def mkWorld (mf : ManifestFile) (lockDir : String → Option String)
    (di : Option FsTree) (agentFolders : String → Option FsTree)
    (agentPathExists : Bool) (baseTree : FsTree) : World :=
  { basePath := "/base"
    baseTree := baseTree
    deployment := fun _ => none
    deployPath := fun _ => "/deploy"
    dataIngestionDir := di
    dataIngestionPath := "/di"
    frontends := fun _ => none
    frontendPath := fun _ => "/fe"
    agentPathExists := agentPathExists
    agentFolders := agentFolders
    agentFolderPath := fun f => "/agents/x/" ++ f
    agentReadme := none
    templateConfig := mf
    lockDir := lockDir
    render := fun _ fs => some fs }

/-- A manifest whose settings declare only the `cloud_run` deployment target. -/
def manifestTargets : List (String × YVal) :=
  [("name", .str "myagent"), ("description", .str "demo"),
   ("settings", .map [("deployment_targets", .list [.str "cloud_run"])])]

/-- A manifest whose settings require data ingestion. -/
def manifestRequiresDI : List (String × YVal) :=
  [("name", .str "myagent"), ("description", .str "demo"),
   ("settings", .map [("requires_data_ingestion", .bool true)])]

/-- A source directory with a normal file, a bytecode file and a cache dir. -/
def fixtureTree : FsTree :=
  .dir (.fileEntry "agent.py" "X"
    (.fileEntry "b.pyc" "Y"
      (.dirEntry "__pycache__" (.fileEntry "z.py" "Z" .empty) .empty)))

/-- An agent `app` override folder containing `agent.py`. -/
def agentAppTree : FsTree := .dir (.fileEntry "agent.py" "AGENT" .empty)

/-- A base template supplying `app/agent.py`. -/
def baseWithApp : FsTree :=
  .dir (.dirEntry "app" (.fileEntry "agent.py" "BASE" .empty) .empty)

/-- A data-ingestion module tree with one pipeline file. -/
def ingestionTree : FsTree := .dir (.fileEntry "pipeline.py" "P" .empty)

/-- World for the agent-override scenario: base and agent both supply
    `app/agent.py`. -/
def wOverride : World :=
  mkWorld (.parsed (.map manifestTargets)) (fun _ => none) none
    (fun f => if f = "app" then some agentAppTree else none) true baseWithApp

/-- World for the invalid-deployment-target scenario. -/
def wTargets : World :=
  mkWorld (.parsed (.map manifestTargets)) (fun _ => none) none
    (fun _ => none) false (.dir .empty)

/-- World for the required-data-ingestion scenario. -/
def wRequiresDI : World :=
  mkWorld (.parsed (.map manifestRequiresDI)) (fun _ => none)
    (some ingestionTree) (fun _ => none) false (.dir .empty)

/-- World with no lock files at all. -/
def wNoLocks : World :=
  mkWorld .absent (fun _ => none) none (fun _ => none) false (.dir .empty)

/-- World with exactly the lock file for `(myagent, cloud_run)`. -/
def wWithLock : World :=
  mkWorld .absent
    (fun n => if n = "uv-myagent-cloud_run.lock" then some "lockdata" else none)
    none (fun _ => none) false (.dir .empty)

/-! ## Helper lemmas about the primitives -/

theorem fsSet_same (fs : Fs) (p : List String) (c : String) :
    fsSet fs p c p = some c := by
  simp [fsSet]

theorem fsSet_other (fs : Fs) (p : List String) (c : String) (q : List String)
    (h : q ≠ p) : fsSet fs p c q = fs q := by
  simp [fsSet, h]

theorem strMk_data (s : String) : String.mk s.data = s := by
  cases s
  rfl

theorem strData_append (a b : String) : (a ++ b).data = a.data ++ b.data := by
  cases a
  cases b
  rfl

theorem takeWhile_append_of_all (p : Char → Bool) (l1 : List Char) (x : Char)
    (l2 : List Char) (h1 : ∀ c ∈ l1, p c = true) (hx : p x = false) :
    (l1 ++ x :: l2).takeWhile p = l1 := by
  induction l1 with
  | nil => simp [List.takeWhile_cons, hx]
  | cons a l ih =>
    have ha : p a = true := h1 a (by simp)
    simp only [List.cons_append, List.takeWhile_cons, ha, if_true]
    rw [ih (fun c hc => h1 c (by simp [hc]))]

/-- The name of `sp ++ "/" ++ name` is `name`, when `name` contains no slash. -/
theorem lastComponent_append (sp name : String)
    (h : name.data.all (fun c => !(c == '/')) = true) :
    lastComponent (sp ++ "/" ++ name) = name := by
  unfold lastComponent
  rw [strData_append, strData_append]
  have hslash : ("/" : String).data = ['/'] := rfl
  rw [hslash, List.append_assoc, List.reverse_append]
  have hrev : (['/'] ++ name.data).reverse = name.data.reverse ++ ['/'] := by
    simp
  rw [hrev, List.append_assoc, List.singleton_append]
  rw [takeWhile_append_of_all _ name.data.reverse '/' _
    (fun c hc => by
      have := List.all_eq_true.mp h c (List.mem_reverse.mp hc)
      simpa using this)
    (by decide)]
  rw [List.reverse_reverse, strMk_data]

theorem containsSeq_append_left (l1 l2 pat : List Char)
    (h : containsSeq l2 pat = true) : containsSeq (l1 ++ l2) pat = true := by
  induction l1 with
  | nil => simpa using h
  | cons c l ih =>
    rw [List.cons_append, containsSeq]
    simp [ih]

/-- A skipped first condition: a `.pyc` name forces `should_skip`. -/
theorem should_skip_of_pyc (p : String) (ag : Option String)
    (h : (suffixOfName (lastComponent p) == ".pyc") = true) :
    should_skip p ag = true := by
  unfold should_skip
  rw [if_pos h]

/-- `__pycache__` in the path string forces `should_skip`. -/
theorem should_skip_of_pycache (p : String) (ag : Option String)
    (h : strContainsSub p "__pycache__" = true) : should_skip p ag = true := by
  unfold should_skip
  split
  · rfl
  · rw [if_pos]
    simp [h]

/-! ## The behaviour of `copy_files`

The five lemmas below characterize what one `copy_files` call can do to the
destination file map: changes are localized below `dst`; with overwrite off,
existing files survive with their exact contents; with overwrite on, every
file the source supplies (skip-aware, captured by `providesDir`) lands with
the source's contents; paths the source does not supply are untouched; and
`.pyc`/`__pycache__` paths are untouched in either mode. -/

theorem copyDir_localized (d : Dir) :
    ∀ (sp : String) (dst : List String) (agent : Option String) (ow : Bool)
      (fs : Fs) (q : List String),
      copyDir sp d dst agent ow fs q ≠ fs q →
      ∃ name tail, q = dst ++ name :: tail := by
  induction d with
  | empty =>
    intro sp dst agent ow fs q h
    simp [copyDir] at h
  | fileEntry name c rest ih =>
    intro sp dst agent ow fs q h
    rw [copyDir] at h
    set fs1 := (if should_skip (sp ++ "/" ++ name) agent then fs
      else if ow || (fs (dst ++ [name])).isNone then fsSet fs (dst ++ [name]) c
      else fs) with hfs1
    by_cases hq : copyDir sp rest dst agent ow fs1 q = fs1 q
    · have h2 : fs1 q ≠ fs q := by rw [← hq]; exact h
      have hq2 : q = dst ++ [name] := by
        by_contra hne
        apply h2
        rw [hfs1]
        split
        · rfl
        · split
          · exact fsSet_other fs (dst ++ [name]) c q hne
          · rfl
      exact ⟨name, [], hq2⟩
    · exact ih sp dst agent ow fs1 q hq
  | dirEntry name sub rest ihsub ih =>
    intro sp dst agent ow fs q h
    rw [copyDir] at h
    set fs1 := (if should_skip (sp ++ "/" ++ name) agent then fs
      else copyDir (sp ++ "/" ++ name) sub (dst ++ [name]) agent ow fs) with hfs1
    by_cases hq : copyDir sp rest dst agent ow fs1 q = fs1 q
    · have h2 : fs1 q ≠ fs q := by rw [← hq]; exact h
      have h3 : copyDir (sp ++ "/" ++ name) sub (dst ++ [name]) agent ow fs q ≠ fs q := by
        intro hc
        apply h2
        rw [hfs1]
        split
        · rfl
        · exact hc
      obtain ⟨n2, t2, ht⟩ := ihsub (sp ++ "/" ++ name) (dst ++ [name]) agent ow fs q h3
      exact ⟨name, n2 :: t2, by rw [ht]; simp⟩
    · exact ih sp dst agent ow fs1 q hq

theorem copy_files_localized (sp : String) (t : FsTree) (dst : List String)
    (agent : Option String) (ow : Bool) (fs : Fs) (q : List String)
    (h : copy_files sp t dst agent ow fs q ≠ fs q) :
    ∃ tail, q = dst ++ tail := by
  cases t with
  | dir d =>
    obtain ⟨name, tail, ht⟩ := copyDir_localized d sp dst agent ow fs q h
    exact ⟨name :: tail, ht⟩
  | file c =>
    rw [copy_files] at h
    refine ⟨[], ?_⟩
    simp only [List.append_nil]
    by_contra hne
    apply h
    split
    · split
      · exact fsSet_other fs dst c q hne
      · rfl
    · rfl

theorem providesDir_fileEntry_eq (sp name c0 : String) (rest : Dir)
    (agent : Option String) (rel : List String) :
    providesDir sp (.fileEntry name c0 rest) agent rel =
      match providesDir sp rest agent rel with
      | some c2 => some c2
      | none =>
        if rel = [name] then
          if should_skip (sp ++ "/" ++ name) agent then none else some c0
        else none := rfl

theorem providesDir_dirEntry_eq (sp name : String) (sub rest : Dir)
    (agent : Option String) (rel : List String) :
    providesDir sp (.dirEntry name sub rest) agent rel =
      match providesDir sp rest agent rel with
      | some c2 => some c2
      | none =>
        match rel with
        | [] => none
        | r :: rs =>
          if r = name then
            if should_skip (sp ++ "/" ++ name) agent then none
            else providesDir (sp ++ "/" ++ name) sub agent rs
          else none := rfl

theorem copyDir_preserve (d : Dir) :
    ∀ (sp : String) (dst : List String) (agent : Option String) (fs : Fs)
      (q : List String) (c : String), fs q = some c →
      copyDir sp d dst agent false fs q = some c := by
  induction d with
  | empty =>
    intro sp dst agent fs q c h
    simpa [copyDir] using h
  | fileEntry name c0 rest ih =>
    intro sp dst agent fs q c h
    rw [copyDir]
    apply ih
    split
    · exact h
    · split
      · rename_i hwrite
        simp only [Bool.false_or, Option.isNone_iff_eq_none] at hwrite
        by_cases hq : q = dst ++ [name]
        · rw [hq] at h
          rw [hwrite] at h
          exact absurd h (by simp)
        · rw [fsSet_other fs (dst ++ [name]) c0 q hq]
          exact h
      · exact h
  | dirEntry name sub rest ihsub ih =>
    intro sp dst agent fs q c h
    rw [copyDir]
    apply ih
    split
    · exact h
    · exact ihsub (sp ++ "/" ++ name) (dst ++ [name]) agent fs q c h

theorem copyDir_unchanged (d : Dir) :
    ∀ (sp : String) (dst : List String) (agent : Option String) (ow : Bool)
      (fs : Fs) (rel : List String),
      providesDir sp d agent rel = none →
      copyDir sp d dst agent ow fs (dst ++ rel) = fs (dst ++ rel) := by
  induction d with
  | empty =>
    intro sp dst agent ow fs rel _
    simp [copyDir]
  | fileEntry name c0 rest ih =>
    intro sp dst agent ow fs rel h
    rw [providesDir_fileEntry_eq] at h
    cases hrest : providesDir sp rest agent rel with
    | some c2 =>
      rw [hrest] at h
      exact absurd h (by simp)
    | none =>
      rw [hrest] at h
      rw [copyDir, ih sp dst agent ow _ rel hrest]
      split
      · rfl
      · rename_i hskip
        split
        · apply fsSet_other
          intro hc
          have hrel : rel = [name] := List.append_cancel_left hc
          rw [if_pos hrel, if_neg hskip] at h
          exact absurd h (by simp)
        · rfl
  | dirEntry name sub rest ihsub ih =>
    intro sp dst agent ow fs rel h
    rw [providesDir_dirEntry_eq] at h
    cases hrest : providesDir sp rest agent rel with
    | some c2 =>
      rw [hrest] at h
      exact absurd h (by simp)
    | none =>
      simp only [hrest] at h
      rw [copyDir, ih sp dst agent ow _ rel hrest]
      split
      · rfl
      · rename_i hskip
        cases rel with
        | nil =>
          by_contra hne
          obtain ⟨n2, t2, ht⟩ :=
            copyDir_localized sub (sp ++ "/" ++ name) (dst ++ [name]) agent ow fs _ hne
          rw [List.append_nil, List.append_assoc, List.singleton_append] at ht
          have h0 : ([] : List String) = name :: n2 :: t2 := by
            apply @List.append_cancel_left _ dst _ _
            rw [List.append_nil]
            exact ht
          exact absurd h0 (by simp)
        | cons r rs =>
          by_cases hr : r = name
          · subst hr
            have hsub : providesDir (sp ++ "/" ++ r) sub agent rs = none := by
              simpa [hskip] using h
            have hstep : dst ++ r :: rs = (dst ++ [r]) ++ rs := by simp
            rw [hstep]
            exact ihsub (sp ++ "/" ++ r) (dst ++ [r]) agent ow fs rs hsub
          · by_contra hne
            obtain ⟨n2, t2, ht⟩ :=
              copyDir_localized sub (sp ++ "/" ++ name) (dst ++ [name]) agent ow fs _ hne
            rw [List.append_assoc, List.singleton_append] at ht
            have h0 : r :: rs = name :: n2 :: t2 := List.append_cancel_left ht
            exact hr (by injection h0)

theorem copyDir_overwrite (d : Dir) :
    ∀ (sp : String) (dst : List String) (agent : Option String) (fs : Fs)
      (rel : List String) (c : String),
      providesDir sp d agent rel = some c →
      copyDir sp d dst agent true fs (dst ++ rel) = some c := by
  induction d with
  | empty =>
    intro sp dst agent fs rel c h
    exact absurd h (by simp [providesDir])
  | fileEntry name c0 rest ih =>
    intro sp dst agent fs rel c h
    rw [providesDir_fileEntry_eq] at h
    rw [copyDir]
    cases hrest : providesDir sp rest agent rel with
    | some c2 =>
      rw [hrest] at h
      obtain rfl : c2 = c := by injection h
      exact ih sp dst agent _ rel _ hrest
    | none =>
      rw [hrest] at h
      by_cases hq : rel = [name]
      · rw [if_pos hq] at h
        by_cases hskip : should_skip (sp ++ "/" ++ name) agent = true
        · rw [if_pos hskip] at h
          exact absurd h (by simp)
        · rw [if_neg hskip] at h
          obtain rfl : c0 = c := by injection h
          rw [copyDir_unchanged rest sp dst agent true _ rel hrest]
          rw [if_neg hskip]
          simp only [Bool.true_or, if_true]
          rw [hq]
          exact fsSet_same fs (dst ++ [name]) c0
      · rw [if_neg hq] at h
        exact absurd h (by simp)
  | dirEntry name sub rest ihsub ih =>
    intro sp dst agent fs rel c h
    rw [providesDir_dirEntry_eq] at h
    rw [copyDir]
    cases hrest : providesDir sp rest agent rel with
    | some c2 =>
      rw [hrest] at h
      obtain rfl : c2 = c := by injection h
      exact ih sp dst agent _ rel _ hrest
    | none =>
      simp only [hrest] at h
      rw [copyDir_unchanged rest sp dst agent true _ rel hrest]
      cases rel with
      | nil => exact absurd h (by simp)
      | cons r rs =>
        by_cases hr : r = name
        · subst hr
          by_cases hskip : should_skip (sp ++ "/" ++ r) agent = true
          · exfalso
            simp [hskip] at h
          · have hsubp : providesDir (sp ++ "/" ++ r) sub agent rs = some c := by
              simpa [hskip] using h
            rw [if_neg hskip]
            have hstep : dst ++ r :: rs = (dst ++ [r]) ++ rs := by simp
            rw [hstep]
            exact ihsub (sp ++ "/" ++ r) (dst ++ [r]) agent fs rs c hsubp
        · exact absurd h (by simp [hr])

theorem copyDir_bad (d : Dir) :
    ∀ (sp : String) (dst : List String) (agent : Option String) (ow : Bool)
      (fs : Fs) (rel : List String),
      badRel rel = true → validSegs rel = true →
      copyDir sp d dst agent ow fs (dst ++ rel) = fs (dst ++ rel) := by
  induction d with
  | empty =>
    intro sp dst agent ow fs rel _ _
    simp [copyDir]
  | fileEntry name c0 rest ih =>
    intro sp dst agent ow fs rel hbad hval
    rw [copyDir, ih sp dst agent ow _ rel hbad hval]
    split
    · rfl
    · rename_i hskip
      split
      · apply fsSet_other
        intro hc
        have hrel : rel = [name] := List.append_cancel_left hc
        subst hrel
        apply hskip
        have hv1 : name.data.all (fun c => !(c == '/')) = true := by
          simp only [validSegs, Bool.and_eq_true] at hval
          exact hval.1
        simp only [badRel, lastSeg, hasPycacheSeg, Bool.or_eq_true] at hbad
        rcases hbad with h1 | h2 | h3
        · apply should_skip_of_pyc
          rw [lastComponent_append sp name hv1]
          exact h1
        · apply should_skip_of_pycache
          unfold strContainsSub
          rw [strData_append]
          apply containsSeq_append_left
          have hn : name = "__pycache__" := by simpa using h2
          rw [hn]
          decide
        · exact absurd h3 (by simp [hasPycacheSeg])
      · rfl
  | dirEntry name sub rest ihsub ih =>
    intro sp dst agent ow fs rel hbad hval
    rw [copyDir, ih sp dst agent ow _ rel hbad hval]
    split
    · rfl
    · rename_i hskip
      cases rel with
      | nil => simp [badRel, lastSeg, hasPycacheSeg] at hbad
      | cons r rs =>
        by_cases hr : r = name
        · subst hr
          by_cases hname : r = "__pycache__"
          · exfalso
            apply hskip
            apply should_skip_of_pycache
            unfold strContainsSub
            rw [strData_append]
            apply containsSeq_append_left
            rw [hname]
            decide
          · cases rs with
            | nil =>
              by_contra hne
              obtain ⟨n2, t2, ht⟩ :=
                copyDir_localized sub (sp ++ "/" ++ r) (dst ++ [r]) agent ow fs _ hne
              have h0 : ([] : List String) = n2 :: t2 := by
                apply @List.append_cancel_left _ (dst ++ [r]) _ _
                rw [List.append_nil]
                exact ht
              exact absurd h0 (by simp)
            | cons r2 rs2 =>
              have hbad2 : badRel (r2 :: rs2) = true := by
                simp only [badRel, lastSeg, hasPycacheSeg, Bool.or_eq_true] at hbad ⊢
                rcases hbad with h1 | h2 | h3
                · exact Or.inl h1
                · exact absurd (by simpa using h2) hname
                · exact Or.inr h3
              have hval2 : validSegs (r2 :: rs2) = true := by
                rw [validSegs, Bool.and_eq_true] at hval
                exact hval.2
              have hstep : dst ++ r :: r2 :: rs2 = (dst ++ [r]) ++ r2 :: rs2 := by simp
              rw [hstep]
              exact ihsub (sp ++ "/" ++ r) (dst ++ [r]) agent ow fs (r2 :: rs2) hbad2 hval2
        · by_contra hne
          obtain ⟨n2, t2, ht⟩ :=
            copyDir_localized sub (sp ++ "/" ++ name) (dst ++ [name]) agent ow fs _ hne
          rw [List.append_assoc, List.singleton_append] at ht
          have h0 : r :: rs = name :: n2 :: t2 := List.append_cancel_left ht
          exact hr (by injection h0)

/-! Tree-level versions of the copy lemmas (the `copy_files` entry point). -/

theorem copy_files_preserve (sp : String) (t : FsTree) (dst : List String)
    (agent : Option String) (fs : Fs) (q : List String) (c : String)
    (h : fs q = some c) : copy_files sp t dst agent false fs q = some c := by
  cases t with
  | dir d => exact copyDir_preserve d sp dst agent fs q c h
  | file c0 =>
    rw [copy_files]
    split
    · split
      · rename_i hw
        simp only [Bool.false_or, Option.isNone_iff_eq_none] at hw
        by_cases hq : q = dst
        · rw [hq, hw] at h
          exact absurd h (by simp)
        · rw [fsSet_other fs dst c0 q hq]
          exact h
      · exact h
    · exact h

theorem copy_files_overwrite (sp : String) (t : FsTree) (dst : List String)
    (agent : Option String) (fs : Fs) (rel : List String) (c : String)
    (h : provides sp t agent rel = some c) :
    copy_files sp t dst agent true fs (dst ++ rel) = some c := by
  cases t with
  | dir d => exact copyDir_overwrite d sp dst agent fs rel c h
  | file c0 =>
    cases rel with
    | nil =>
      rw [provides] at h
      by_cases hskip : should_skip sp agent = true
      · rw [if_pos hskip] at h
        exact absurd h (by simp)
      · rw [if_neg hskip] at h
        obtain rfl : c0 = c := by injection h
        have hsf : should_skip sp agent = false := by
          cases hv : should_skip sp agent
          · rfl
          · exact absurd hv hskip
        rw [copy_files, List.append_nil, hsf]
        simp [fsSet]
    | cons r rs =>
      rw [provides] at h
      exact absurd h (by simp)

theorem copy_files_unchanged (sp : String) (t : FsTree) (dst : List String)
    (agent : Option String) (ow : Bool) (fs : Fs) (rel : List String)
    (h : provides sp t agent rel = none) :
    copy_files sp t dst agent ow fs (dst ++ rel) = fs (dst ++ rel) := by
  cases t with
  | dir d => exact copyDir_unchanged d sp dst agent ow fs rel h
  | file c0 =>
    rw [copy_files]
    cases rel with
    | nil =>
      rw [provides] at h
      rw [List.append_nil]
      by_cases hskip : should_skip sp agent = true
      · simp [hskip]
      · rw [if_neg hskip] at h
        exact absurd h (by simp)
    | cons r rs =>
      split
      · split
        · apply fsSet_other
          intro hc
          have : r :: rs = ([] : List String) := by
            apply @List.append_cancel_left _ dst _ _
            rw [List.append_nil]
            exact hc
          exact absurd this (by simp)
        · rfl
      · rfl

theorem copy_files_bad (sp : String) (t : FsTree) (dst : List String)
    (agent : Option String) (ow : Bool) (fs : Fs) (rel : List String)
    (hbad : badRel rel = true) (hval : validSegs rel = true) :
    copy_files sp t dst agent ow fs (dst ++ rel) = fs (dst ++ rel) := by
  cases t with
  | dir d => exact copyDir_bad d sp dst agent ow fs rel hbad hval
  | file c0 =>
    rw [copy_files]
    cases rel with
    | nil => simp [badRel, lastSeg, hasPycacheSeg] at hbad
    | cons r rs =>
      split
      · split
        · apply fsSet_other
          intro hc
          have : r :: rs = ([] : List String) := by
            apply @List.append_cancel_left _ dst _ _
            rw [List.append_nil]
            exact hc
          exact absurd this (by simp)
        · rfl
      · rfl

/-! ## Behaviour of the composition pipeline -/

theorem pass5Go_cons (w : World) (a g : String) (rest : List String) (fs : Fs) :
    pass5Go w a (g :: rest) fs =
      pass5Go w a rest
        (match w.agentFolders g with
         | some t => copy_files (w.agentFolderPath g) t [g] (some a) true fs
         | none => fs) := rfl

/-- The pass-5 loop never touches a path whose head is not one of the
    processed folder names. -/
theorem pass5Go_preserves (w : World) (a : String) (l : List String) :
    ∀ (fs : Fs) (q : List String),
      (∀ g ∈ l, ∀ tail, q ≠ g :: tail) →
      pass5Go w a l fs q = fs q := by
  induction l with
  | nil =>
    intro fs q _
    rfl
  | cons g rest ih =>
    intro fs q hq
    rw [pass5Go_cons]
    rw [ih _ q (fun g2 hg2 tail => hq g2 (by simp [hg2]) tail)]
    cases hg : w.agentFolders g with
    | none => rfl
    | some t =>
      by_contra hne
      obtain ⟨tail, htail⟩ := copy_files_localized (w.agentFolderPath g) t [g]
        (some a) true fs q hne
      exact hq g (by simp) tail (by simpa using htail)

/-- Processing a folder list containing `f` (exactly once) installs every
    file the agent's `f` folder supplies at `f :: rel`. -/
theorem pass5Go_writes (w : World) (a : String) (l : List String) :
    ∀ (fs : Fs) (f : String) (t : FsTree) (rel : List String) (c : String),
      l.Nodup → f ∈ l → w.agentFolders f = some t →
      provides (w.agentFolderPath f) t (some a) rel = some c →
      pass5Go w a l fs (f :: rel) = some c := by
  induction l with
  | nil =>
    intro fs f t rel c _ hf _ _
    exact absurd hf (by simp)
  | cons g rest ih =>
    intro fs f t rel c hnd hf ht hp
    rw [pass5Go_cons]
    by_cases hg : g = f
    · subst hg
      rw [ht]
      have hw : copy_files (w.agentFolderPath g) t [g] (some a) true fs
          ([g] ++ rel) = some c :=
        copy_files_overwrite (w.agentFolderPath g) t [g] (some a) fs rel c hp
      have hnotin : g ∉ rest := (List.nodup_cons.mp hnd).1
      rw [pass5Go_preserves w a rest _ (g :: rel)
        (fun g2 hg2 tail hq => by
          have : g2 = g := by injection hq.symm
          exact hnotin (this ▸ hg2))]
      simpa using hw
    · have hf2 : f ∈ rest := by
        cases List.mem_cons.mp hf with
        | inl h0 => exact absurd h0.symm hg
        | inr h0 => exact h0
      exact ih _ f t rel c (List.nodup_cons.mp hnd).2 hf2 ht hp

theorem coerceFrontend_str (s : String) : ∃ r, coerceFrontend (.str s) = .ok r := by
  unfold coerceFrontend
  by_cases h : s = ""
  · subst h
    exact ⟨DEFAULT_FRONTEND, rfl⟩
  · refine ⟨s, ?_⟩
    rw [if_pos]
    simp [truthy, h]

theorem load_template_config_map (cm : List (String × YVal)) (hcm : cm ≠ []) :
    load_template_config (.parsed (.map cm)) = .map cm := by
  cases cm with
  | nil => exact absurd rfl hcm
  | cons p l => rfl

theorem yGetSettingsKey_map (cm sm : List (String × YVal)) (k : String) (d : YVal)
    (hs : List.lookup "settings" cm = some (.map sm)) :
    yGetSettingsKey (.map cm) k d = .ok ((List.lookup k sm).getD d) := by
  simp [yGetSettingsKey, yGetD, hs]

theorem lookup_ne_nil {α : Type} (k : String) (m : List (String × α)) (v : α)
    (h : List.lookup k m = some v) : m ≠ [] := by
  intro h0
  rw [h0] at h
  simp [List.lookup] at h

/-- Under a well-formed manifest (a mapping with a mapping under `settings`,
    and a frontend type that is either absent or a string), the copy passes
    always succeed. -/
theorem composePasses_isOk (w : World) (a : String) (dt : Option String)
    (idi : Bool) (cm sm : List (String × YVal))
    (hcfg : w.templateConfig = .parsed (.map cm))
    (hs : List.lookup "settings" cm = some (.map sm))
    (hft : List.lookup "frontend_type" sm = none ∨
           ∃ fstr, List.lookup "frontend_type" sm = some (.str fstr)) :
    ∃ fs1, composePasses w a dt idi = .ok fs1 := by
  have hcm : cm ≠ [] := lookup_ne_nil "settings" cm (.map sm) hs
  have hload : load_template_config w.templateConfig = .map cm := by
    rw [hcfg]
    exact load_template_config_map cm hcm
  have hreq := yGetSettingsKey_map cm sm "requires_data_ingestion" (.bool false) hs
  have hftv := yGetSettingsKey_map cm sm "frontend_type" (.str DEFAULT_FRONTEND) hs
  have hcoerce : ∃ r, coerceFrontend
      ((List.lookup "frontend_type" sm).getD (.str DEFAULT_FRONTEND)) = .ok r := by
    rcases hft with h0 | ⟨fstr, h0⟩
    · rw [h0]
      exact coerceFrontend_str DEFAULT_FRONTEND
    · rw [h0]
      exact coerceFrontend_str fstr
  obtain ⟨r, hr⟩ := hcoerce
  cases hcp : composePasses w a dt idi with
  | ok fs1 => exact ⟨fs1, rfl⟩
  | error e =>
    simp only [composePasses, hload, hreq, hftv, hr] at hcp
    exact absurd hcp (by simp)

/-- Under the same well-formedness, the validation block rejects a non-empty
    deployment target that is not among the manifest's targets, with a
    `ValueError`. -/
theorem validateConfig_rejects (w : World) (t : String)
    (cm sm : List (String × YVal)) (tv : YVal) (targets : List YVal)
    (hcfg : w.templateConfig = .parsed (.map cm))
    (hs : List.lookup "settings" cm = some (.map sm))
    (htv : List.lookup "deployment_targets" sm = some tv)
    (hnorm : normalizeTargets tv = .list targets)
    (hmem : targets.any
      (fun e => match e with | .str s => s == t | _ => false) = false)
    (ht : t ≠ "") :
    validateConfig w (some t) =
      .error (.valueError ("Invalid deployment target " ++ t)) := by
  have hcm : cm ≠ [] := lookup_ne_nil "settings" cm (.map sm) hs
  have hload : load_template_config w.templateConfig = .map cm := by
    rw [hcfg]
    exact load_template_config_map cm hcm
  have htr : truthy (.map cm) = true := by
    cases cm with
    | nil => exact absurd rfl hcm
    | cons p l => rfl
  simp only [validateConfig, hload, htr, Bool.true_eq_false, if_false,
    yGetD, hs, htv, Option.getD_some, hnorm, yvalMem]
  rw [if_neg ht]
  simp only [hmem, Bool.false_eq_true, if_false]

/-- Shape of a successful composition with an existing agent directory: the
    result is pass 5 applied last (then the agent README side file). -/
theorem composePasses_ok_shape (w : World) (a : String) (dt : Option String)
    (idi : Bool) (fs1 : Fs) (hape : w.agentPathExists = true)
    (h : composePasses w a dt idi = .ok fs1) :
    ∃ fs4 : Fs,
      fs1 = (match w.agentReadme with
        | some c => fsSet (pass5 w a fs4) ["agent_README.md"] c
        | none => pass5 w a fs4) := by
  cases h1 : yGetSettingsKey (load_template_config w.templateConfig)
      "requires_data_ingestion" (.bool false) with
  | error e =>
    simp only [composePasses, h1] at h
    exact absurd h (by simp)
  | ok req =>
    cases h2 : yGetSettingsKey (load_template_config w.templateConfig)
        "frontend_type" (.str DEFAULT_FRONTEND) with
    | error e =>
      simp only [composePasses, h1, h2] at h
      exact absurd h (by simp)
    | ok ftv =>
      cases h3 : coerceFrontend ftv with
      | error e =>
        simp only [composePasses, h1, h2, h3] at h
        exact absurd h (by simp)
      | ok ft =>
        simp only [composePasses, h1, h2, h3, hape, eq_self_iff_true, if_true] at h
        injection h with h4
        exact ⟨_, h4.symm⟩

/-- Shape of a successful `prepareRender`: the returned tree is the input
    tree with (exactly when the data-ingestion flag is on) the data-ingestion
    copy applied, and the flag is recorded in the cookiecutter context. -/
theorem prepareRender_ok_shape (w : World) (a : String) (dt : Option String)
    (idi : Bool) (fs fs2 : Fs) (cc : CookiecutterConfig) (req : YVal)
    (hreq : yGetSettingsKey (load_template_config w.templateConfig)
      "requires_data_ingestion" (.bool false) = .ok req)
    (h : prepareRender w a dt idi fs = .ok (fs2, cc)) :
    fs2 = (if (idi || truthy req) = true then copy_data_ingestion_files w fs else fs)
      ∧ cc.data_ingestion = (idi || truthy req) := by
  cases h2 : yGetSettingsKey (load_template_config w.templateConfig)
      "extra_dependencies" (.list []) with
  | error e =>
    simp only [prepareRender, hreq, h2] at h
    exact absurd h (by simp)
  | ok deps =>
    cases h3 : yIter deps with
    | error e =>
      simp only [prepareRender, hreq, h2, h3] at h
      exact absurd h (by simp)
    | ok depList =>
      cases h4 : get_otel_instrumentations depList with
      | error e =>
        simp only [prepareRender, hreq, h2, h3, h4] at h
        exact absurd h (by simp)
      | ok otel =>
        cases h5 : yGetSettingsKey (load_template_config w.templateConfig)
            "frontend_type" (.str DEFAULT_FRONTEND) with
        | error e =>
          simp only [prepareRender, hreq, h2, h3, h4, h5] at h
          exact absurd h (by simp)
        | ok ftv =>
          cases h6 : yGetD (load_template_config w.templateConfig)
              "description" (.str "") with
          | error e =>
            simp only [prepareRender, hreq, h2, h3, h4, h5, h6] at h
            exact absurd h (by simp)
          | ok desc =>
            simp only [prepareRender, hreq, h2, h3, h4, h5, h6] at h
            injection h with h7
            have hfst := congrArg Prod.fst h7
            have hsnd := congrArg Prod.snd h7
            dsimp only at hfst hsnd
            constructor
            · exact hfst.symm
            · rw [← hsnd]

/-! ## Behaviour of the polling loop -/

theorem pollLoop_congr (polls polls2 : Nat → PollR) :
    ∀ (rem attempt : Nat),
      (∀ i, attempt ≤ i → i < attempt + rem → polls i = polls2 i) →
      pollLoop polls attempt rem = pollLoop polls2 attempt rem := by
  intro rem
  induction rem with
  | zero =>
    intro attempt _
    rfl
  | succ n ih =>
    intro attempt h
    rw [pollLoop, pollLoop, h attempt (Nat.le_refl _) (by omega)]
    cases polls2 attempt with
    | procError m => rfl
    | parsed stage oauth appId =>
      dsimp only
      by_cases h1 : stage = some "COMPLETE"
      · rw [if_pos h1, if_pos h1]
      · rw [if_neg h1, if_neg h1]
        by_cases h2 : stage = some "PENDING_USER_OAUTH" ∨ stage = some "PENDING_INSTALL_APP"
        · rw [if_pos h2, if_pos h2]
          exact ih (attempt + 1) (fun i hi1 hi2 => h i (by omega) (by omega))
        · rw [if_neg h2, if_neg h2]

theorem pollLoop_pending_timeout (polls : Nat → PollR) :
    ∀ (rem attempt : Nat),
      (∀ i, attempt ≤ i → i < attempt + rem → isPending (polls i)) →
      pollLoop polls attempt rem = .error .timeoutError := by
  intro rem
  induction rem with
  | zero =>
    intro attempt _
    rfl
  | succ n ih =>
    intro attempt h
    rcases h attempt (Nat.le_refl _) (by omega) with ⟨o, a2, ho | ho⟩
    · simp only [pollLoop, ho]
      rw [if_neg (by simp), if_pos (by simp)]
      exact ih (attempt + 1) (fun i h1 h2 => h i (by omega) (by omega))
    · simp only [pollLoop, ho]
      rw [if_neg (by simp), if_pos (by simp)]
      exact ih (attempt + 1) (fun i h1 h2 => h i (by omega) (by omega))

theorem pollLoop_complete (polls : Nat → PollR) :
    ∀ (k rem attempt : Nat) (o b sid : String),
      k < rem →
      (∀ i, attempt ≤ i → i < attempt + k → isPending (polls i)) →
      polls (attempt + k) = .parsed (some "COMPLETE") (some o) (some b) →
      o ≠ "" → b ≠ "" →
      extractSecretId o = .ok sid →
      pollLoop polls attempt rem = .ok (sid, b) := by
  intro k
  induction k with
  | zero =>
    intro rem attempt o b sid hk _ hc ho hb hex
    cases rem with
    | zero => omega
    | succ m =>
      rw [Nat.add_zero] at hc
      simp only [pollLoop, hc, Option.getD_some]
      rw [if_pos trivial, if_neg (by simp [ho, hb]), hex]
  | succ n ih =>
    intro rem attempt o b sid hk hpend hc ho hb hex
    cases rem with
    | zero => omega
    | succ m =>
      rcases hpend attempt (Nat.le_refl _) (by omega) with ⟨o2, a2, hp | hp⟩
      · simp only [pollLoop, hp]
        rw [if_neg (by simp), if_pos (by simp)]
        refine ih m (attempt + 1) o b sid (by omega)
          (fun i h1 h2 => hpend i (by omega) (by omega)) ?_ ho hb hex
        rw [show attempt + 1 + n = attempt + (n + 1) by omega]
        exact hc
      · simp only [pollLoop, hp]
        rw [if_neg (by simp), if_pos (by simp)]
        refine ih m (attempt + 1) o b sid (by omega)
          (fun i h1 h2 => hpend i (by omega) (by omega)) ?_ ho hb hex
        rw [show attempt + 1 + n = attempt + (n + 1) by omega]
        exact hc

/-! ## Behaviour of project-name normalization -/

theorem pyIsUpper_pyToLower (c : Char) : pyIsUpper (pyToLower c) = false := by
  by_cases h : pyIsUpper c = true
  · have hall : upperChars.all (fun x => !pyIsUpper (pyToLower x)) = true := by decide
    have hmem : c ∈ upperChars := by
      rw [pyIsUpper, List.any_eq_true] at h
      obtain ⟨x, hx, hxc⟩ := h
      have hxe : x = c := by simpa using hxc
      exact hxe ▸ hx
    have := List.all_eq_true.mp hall c hmem
    simpa using this
  · rw [pyToLower, if_neg h]
    cases hv : pyIsUpper c
    · rfl
    · exact absurd hv h

theorem replaceAllGo_nil (rep pat : List Char) (n : Nat) :
    replaceAllGo rep pat n [] = [] := by
  cases n
  · rfl
  · rfl

theorem mem_replaceAllGo (rep pat : List Char) :
    ∀ (fuel : Nat) (s : List Char) (c : Char), c ∈ replaceAllGo rep pat fuel s →
      c ∈ s ∨ c ∈ rep := by
  intro fuel
  induction fuel with
  | zero =>
    intro s c h
    exact Or.inl (by simpa [replaceAllGo] using h)
  | succ n ih =>
    intro s c h
    cases s with
    | nil =>
      rw [replaceAllGo_nil] at h
      exact absurd h (by simp)
    | cons a rest =>
      rw [replaceAllGo] at h
      by_cases hcond : (!pat.isEmpty && leadsWith (a :: rest) pat) = true
      · rw [if_pos hcond] at h
        rcases List.mem_append.mp h with h1 | h1
        · exact Or.inr h1
        · rcases ih _ c h1 with h2 | h2
          · exact Or.inl (List.mem_of_mem_drop h2)
          · exact Or.inr h2
      · rw [if_neg hcond] at h
        rcases List.mem_cons.mp h with h1 | h1
        · exact Or.inl (by simp [h1])
        · rcases ih rest c h1 with h2 | h2
          · exact Or.inl (by simp [h2])
          · exact Or.inr h2

theorem underscore_replaced (rep : List Char) (hrep : '_' ∉ rep) :
    ∀ (fuel : Nat) (s : List Char), s.length ≤ fuel →
      '_' ∉ replaceAllGo rep ['_'] fuel s := by
  intro fuel
  induction fuel with
  | zero =>
    intro s hs hmem
    have hnil : s = [] := List.length_eq_zero.mp (Nat.le_zero.mp hs)
    rw [hnil] at hmem
    simp [replaceAllGo] at hmem
  | succ n ih =>
    intro s hs
    cases s with
    | nil => simp [replaceAllGo]
    | cons a rest =>
      rw [replaceAllGo]
      by_cases ha : a = '_'
      · rw [if_pos (by simp [leadsWith, ha])]
        have hdrop : (a :: rest).drop (['_'].length) = rest := rfl
        rw [hdrop]
        intro hmem
        rcases List.mem_append.mp hmem with h1 | h1
        · exact hrep h1
        · exact ih rest (by simpa using hs) h1
      · rw [if_neg (by simp [leadsWith, ha])]
        intro hmem
        rcases List.mem_cons.mp hmem with h1 | h1
        · exact ha h1.symm
        · exact ih rest (by simpa using hs) h1

theorem containsSeq_single (l : List Char) (a : Char) :
    containsSeq l [a] = true ↔ a ∈ l := by
  induction l with
  | nil => simp [containsSeq]
  | cons c rest ih =>
    rw [containsSeq, Bool.or_eq_true]
    constructor
    · intro h
      rcases h with h1 | h1
      · have hca : c = a := by simpa [leadsWith] using h1
        simp [hca]
      · simp [ih.mp h1]
    · intro h
      rcases List.mem_cons.mp h with h1 | h1
      · left
        simp [leadsWith, h1]
      · right
        exact ih.mpr h1

theorem normalize_clean (s : String)
    (h1 : s.data.any pyIsUpper = false) (h2 : strContainsSub s "_" = false) :
    normalize_project_name s = s := by
  unfold normalize_project_name
  rw [h1, h2]
  simp

theorem data_strMk (l : List Char) : (String.mk l).data = l := rfl

theorem any_eq_false_of_forall {α : Type} (l : List α) (p : α → Bool)
    (h : ∀ x ∈ l, p x = false) : l.any p = false := by
  induction l with
  | nil => rfl
  | cons a r ih =>
    rw [List.any_cons, h a (by simp), ih (fun x hx => h x (by simp [hx]))]
    rfl

theorem forall_of_any_eq_false {α : Type} (l : List α) (p : α → Bool)
    (h : l.any p = false) : ∀ x ∈ l, p x = false := by
  intro x hx
  cases hv : p x
  · rfl
  · exfalso
    have htrue : l.any p = true := List.any_eq_true.mpr ⟨x, hx, hv⟩
    rw [htrue] at h
    exact absurd h (by simp)

/-- The output of `normalize_project_name` has no upper-case character and no
    underscore. -/
theorem normalize_output_clean (s : String) :
    (normalize_project_name s).data.any pyIsUpper = false ∧
    strContainsSub (normalize_project_name s) "_" = false := by
  have hkey : ∀ t : String, t.data.any pyIsUpper = false →
      (if strContainsSub t "_" = true then replaceAll t "_" "-" else t).data.any
        pyIsUpper = false ∧
      strContainsSub
        (if strContainsSub t "_" = true then replaceAll t "_" "-" else t) "_"
        = false := by
    intro t htup
    by_cases hu : strContainsSub t "_" = true
    · rw [if_pos hu]
      constructor
      · apply any_eq_false_of_forall
        intro x hx
        have hx2 : x ∈ t.data ∨ x ∈ ("-" : String).data :=
          mem_replaceAllGo _ _ _ _ x (by simpa [replaceAll, data_strMk] using hx)
        rcases hx2 with h2 | h2
        · exact forall_of_any_eq_false _ _ htup x h2
        · have hxe : x = '-' := by simpa using h2
          rw [hxe]
          decide
      · cases hv : strContainsSub (replaceAll t "_" "-") "_"
        · rfl
        · exfalso
          have hmem : '_' ∈ (replaceAll t "_" "-").data := by
            rw [strContainsSub] at hv
            have hpat : ("_" : String).data = ['_'] := rfl
            rw [hpat] at hv
            exact (containsSeq_single _ '_').mp hv
          have hmem2 : '_' ∈ replaceAllGo ['-'] ['_'] t.data.length t.data := by
            have hr : (replaceAll t "_" "-").data =
                replaceAllGo ['-'] ['_'] t.data.length t.data := rfl
            rw [hr] at hmem
            exact hmem
          exact underscore_replaced ['-'] (by decide) t.data.length t.data
            (Nat.le_refl _) hmem2
    · rw [if_neg hu]
      have hv : strContainsSub t "_" = false := by
        cases hw : strContainsSub t "_"
        · rfl
        · exact absurd hw hu
      exact ⟨htup, hv⟩
  unfold normalize_project_name
  by_cases hneed : (s.data.any pyIsUpper || strContainsSub s "_") = true
  · rw [if_pos hneed]
    dsimp only
    apply hkey
    by_cases hup : s.data.any pyIsUpper = true
    · rw [if_pos hup]
      apply any_eq_false_of_forall
      intro x hx
      obtain ⟨y, hy, hyx⟩ : ∃ y ∈ s.data, pyToLower y = x := by
        simpa [strLower, data_strMk] using hx
      rw [← hyx]
      exact pyIsUpper_pyToLower y
    · rw [if_neg hup]
      cases hv : s.data.any pyIsUpper
      · rfl
      · exact absurd hv hup
  · rw [if_neg hneed]
    rw [Bool.or_eq_true] at hneed
    push_neg at hneed
    constructor
    · cases hv : s.data.any pyIsUpper
      · rfl
      · exact absurd hv hneed.1
    · cases hv : strContainsSub s "_"
      · rfl
      · exact absurd hv hneed.2

/-! ## Behaviour of region substitution -/

theorem leadsWith_refl (l : List Char) : leadsWith l l = true := by
  induction l with
  | nil => rfl
  | cons c r ih => simp [leadsWith, ih]

theorem replaceAll_self (v rep : String) (hv : v ≠ "") : replaceAll v v rep = rep := by
  have hd : v.data ≠ [] := by
    intro h0
    apply hv
    cases v with
    | mk d =>
      rw [data_strMk] at h0
      rw [h0]
  unfold replaceAll
  cases hdv : v.data with
  | nil => exact absurd hdv hd
  | cons c rest =>
    rw [List.length_cons, replaceAllGo]
    rw [if_pos (by simp [leadsWith_refl])]
    rw [show (c :: rest).drop (c :: rest).length = [] from List.drop_length _]
    rw [replaceAllGo_nil, List.append_nil, strMk_data]

theorem strLeads_europe_not_us (r : String) (h : strLeads r "europe" = true) :
    strLeads r "us" = false := by
  rw [strLeads] at h ⊢
  cases hd : r.data with
  | nil =>
    rw [hd] at h
    rw [show ("europe" : String).data = 'e' :: ['u', 'r', 'o', 'p', 'e'] from rfl] at h
    exact absurd h (by simp [leadsWith])
  | cons c rest =>
    rw [hd] at h
    rw [show ("europe" : String).data = 'e' :: ['u', 'r', 'o', 'p', 'e'] from rfl] at h
    rw [leadsWith, Bool.and_eq_true] at h
    have hc : c = 'e' := by simpa using h.1
    rw [show ("us" : String).data = 'u' :: ['s'] from rfl, leadsWith, hc]
    simp

theorem replace_region_single (ps : List String) (content : String) (r : String) :
    replace_region_in_files [(ps, content)] r =
      [(ps, if fileEligible ps = true then transformContent r content else content)] := by
  unfold replace_region_in_files
  rw [List.map_cons, List.map_nil]
  by_cases h : fileEligible ps = true
  · rw [if_pos h, if_pos h]
  · rw [if_neg h, if_neg h]

/-! ## The claims -/

/-- C4: `copy_files(src, dst, agent_name, overwrite)` — with `overwrite`
    false, every file already present in the destination keeps exactly its
    prior contents (only missing files are created); with `overwrite` true,
    every non-skipped source file (what `provides` yields, the last duplicate
    entry winning) unconditionally replaces the destination file at the same
    relative path; and paths with a `.pyc` suffix or containing a
    `__pycache__` segment are never copied in either mode (stated for
    well-formed segment names, which contain no slash). -/
theorem c4_copy_files_modes :
    ∀ (sp : String) (t : FsTree) (dst : List String) (agent : Option String)
      (fs : Fs),
      (∀ q c, fs q = some c → copy_files sp t dst agent false fs q = some c) ∧
      (∀ rel c, provides sp t agent rel = some c →
        copy_files sp t dst agent true fs (dst ++ rel) = some c) ∧
      (∀ rel ow, badRel rel = true → validSegs rel = true →
        copy_files sp t dst agent ow fs (dst ++ rel) = fs (dst ++ rel)) := by
  intro sp t dst agent fs
  refine ⟨?_, ?_, ?_⟩
  · intro q c h
    exact copy_files_preserve sp t dst agent fs q c h
  · intro rel c h
    exact copy_files_overwrite sp t dst agent fs rel c h
  · intro rel ow hbad hval
    exact copy_files_bad sp t dst agent ow fs rel hbad hval

/-- Witness for C4 at a concrete tree: an existing destination file survives
    a no-overwrite copy, a source file lands under overwrite, and the `.pyc`
    file is not copied. -/
theorem c4_copy_files_modes_witness :
    copy_files "/src" fixtureTree ["app"] none false
      (fsSet emptyFs ["app", "old.py"] "OLD") ["app", "old.py"] = some "OLD" ∧
    copy_files "/src" fixtureTree ["app"] none true
      (fsSet emptyFs ["app", "old.py"] "OLD") (["app"] ++ ["agent.py"]) = some "X" ∧
    copy_files "/src" fixtureTree ["app"] none true
      (fsSet emptyFs ["app", "old.py"] "OLD") (["app"] ++ ["b.pyc"]) =
      (fsSet emptyFs ["app", "old.py"] "OLD") (["app"] ++ ["b.pyc"]) := by
  have h := c4_copy_files_modes "/src" fixtureTree ["app"] none
    (fsSet emptyFs ["app", "old.py"] "OLD")
  exact ⟨h.1 ["app", "old.py"] "OLD" (by decide),
         h.2.1 ["agent.py"] "X" (by decide),
         h.2.2 ["b.pyc"] true (by decide) (by decide)⟩

/-- C8: whatever `process_template` does — return a tree or raise any of the
    modelled exceptions — the working directory after the call is the
    original one: the `finally` block (`tryFinallyState`'s finalizer) runs
    `os.chdir(original_dir)` on both paths. -/
theorem c8_cwd_restored :
    ∀ (w : World) (agentName projectName : String) (dt : Option String)
      (includeDataIngestion : Bool) (originalDir tempPath : String),
      (process_template_run w agentName projectName dt includeDataIngestion
        originalDir tempPath).2 = originalDir := by
  intro w a p dt idi o t
  rfl

/-- C3 counterexample: a truthy non-mapping YAML document (here the scalar
    string `hello`) is returned unchanged by `load_template_config` — no
    validation error is raised and the result is not a mapping — and a YAML
    parse failure yields `{}` instead of raising. -/
theorem c3_load_config_counterexample :
    load_template_config (.parsed (.str "hello")) = .str "hello" ∧
    isYMap (load_template_config (.parsed (.str "hello"))) = false ∧
    load_template_config (.unreadable "boom") = .map [] :=
  ⟨rfl, rfl, rfl⟩

/-- C3 (amended): `load_template_config` returns `{}` when the manifest file
    is absent and also when reading or parsing raises (the error is logged
    and swallowed, never re-raised); a truthy document is returned as parsed
    even when it is not a mapping, and a falsy one becomes `{}`.  The raising
    behaviour belongs to the strict loader `TemplateConfig.from_file`, which
    fails with a `ValueError` on a parse failure or a non-mapping document. -/
theorem c3_load_config_behaviour :
    load_template_config .absent = .map [] ∧
    (∀ e, load_template_config (.unreadable e) = .map []) ∧
    (∀ v, truthy v = true → load_template_config (.parsed v) = v) ∧
    (∀ v, truthy v = false → load_template_config (.parsed v) = .map []) ∧
    (∀ v, isYMap v = false →
      ∃ m, TemplateConfig.from_file (.parsed v) = .error m) ∧
    (∀ e, ∃ m, TemplateConfig.from_file (.unreadable e) = .error m) := by
  refine ⟨rfl, fun e => rfl, ?_, ?_, ?_, fun e => ⟨_, rfl⟩⟩
  · intro v hv
    unfold load_template_config
    dsimp only
    rw [if_pos hv]
  · intro v hv
    unfold load_template_config
    dsimp only
    rw [if_neg (by simp [hv])]
  · intro v hv
    cases v with
    | map m => exact absurd hv (by simp [isYMap])
    | null => exact ⟨_, rfl⟩
    | bool b => exact ⟨_, rfl⟩
    | num n => exact ⟨_, rfl⟩
    | str s => exact ⟨_, rfl⟩
    | list l => exact ⟨_, rfl⟩

/-- Witness for the amended C3: a truthy mapping comes back unchanged, and
    the strict loader rejects a sequence document. -/
theorem c3_load_config_behaviour_witness :
    load_template_config (.parsed (.map [("name", .str "x")])) =
      .map [("name", .str "x")] ∧
    (∃ m, TemplateConfig.from_file (.parsed (.list [.str "y"])) = .error m) := by
  refine ⟨?_, ?_⟩
  · exact c3_load_config_behaviour.2.2.1 (.map [("name", .str "x")]) (by decide)
  · exact c3_load_config_behaviour.2.2.2.2.1 (.list [.str "y"]) (by decide)

/-- C10: `normalize_project_name` is idempotent; its output never contains
    an (ASCII) upper-case character or an underscore, and any input
    containing neither is returned unchanged. -/
theorem c10_normalize_idempotent :
    ∀ s : String,
      normalize_project_name (normalize_project_name s) =
        normalize_project_name s ∧
      (normalize_project_name s).data.any pyIsUpper = false ∧
      strContainsSub (normalize_project_name s) "_" = false ∧
      ((s.data.any pyIsUpper = false ∧ strContainsSub s "_" = false) →
        normalize_project_name s = s) := by
  intro s
  have hc := normalize_output_clean s
  refine ⟨normalize_clean _ hc.1 hc.2, hc.1, hc.2, ?_⟩
  intro h
  exact normalize_clean s h.1 h.2

/-- Witness for C10 at concrete names: a name with upper case and an
    underscore is already stable after one pass, and a clean name passes
    through unchanged. -/
theorem c10_normalize_idempotent_witness :
    normalize_project_name (normalize_project_name "My_App") =
      normalize_project_name "My_App" ∧
    normalize_project_name "myapp" = "myapp" := by
  refine ⟨(c10_normalize_idempotent "My_App").1, ?_⟩
  exact (c10_normalize_idempotent "myapp").2.2.2 ⟨by decide, by decide⟩

/-- C7: the data-store-region token is derived from the requested region's
    prefix — every region starting with `us` maps to `us`, every region
    starting with `europe` (such as `europe-west4`) maps to `eu`, and every
    other region maps to `global` — and on a file consisting of one of the
    four known textual variants of the data-store-region key the transform
    rewrites that variant to carry the token; `replace_region_in_files`
    applies the transform exactly to the files passing the
    extension/directory filter. -/
theorem c7_region_substitution :
    ∀ r : String,
      (strLeads r "us" = true → dataStoreRegion r = "us") ∧
      (strLeads r "europe" = true → dataStoreRegion r = "eu") ∧
      (strLeads r "us" = false → strLeads r "europe" = false →
        dataStoreRegion r = "global") ∧
      dataStoreRegion "us-central1" = "us" ∧
      dataStoreRegion "europe-west4" = "eu" ∧
      transformContent r "data_store_region = \"us\"" =
        "data_store_region = \"" ++ dataStoreRegion r ++ "\"" ∧
      transformContent r "data_store_region=\"us\"" =
        "data_store_region=\"" ++ dataStoreRegion r ++ "\"" ∧
      transformContent r "data-store-region=\"us\"" =
        "data-store-region=\"" ++ dataStoreRegion r ++ "\"" ∧
      transformContent r "_DATA_STORE_REGION: us" =
        "_DATA_STORE_REGION: " ++ dataStoreRegion r ∧
      (∀ (ps : List String) (content : String),
        replace_region_in_files [(ps, content)] r =
          [(ps, if fileEligible ps = true then transformContent r content
                else content)]) := by
  intro r
  refine ⟨?_, ?_, ?_, by decide, by decide, ?_, ?_, ?_, ?_,
    fun ps content => replace_region_single ps content r⟩
  · intro h
    unfold dataStoreRegion
    rw [if_pos h]
  · intro h
    unfold dataStoreRegion
    rw [if_neg (by simp [strLeads_europe_not_us r h]), if_pos h]
  · intro h1 h2
    unfold dataStoreRegion
    rw [if_neg (by simp [h1]), if_neg (by simp [h2])]
  · unfold transformContent
    rw [if_neg (show ¬(strContainsSub "data_store_region = \"us\"" "us-central1"
          = true) by decide),
      if_pos (show strContainsSub "data_store_region = \"us\""
          "data_store_region = \"us\"" = true by decide)]
    exact replaceAll_self _ _ (show ("data_store_region = \"us\"" : String) ≠ ""
      by decide)
  · unfold transformContent
    rw [if_neg (show ¬(strContainsSub "data_store_region=\"us\"" "us-central1"
          = true) by decide),
      if_neg (show ¬(strContainsSub "data_store_region=\"us\""
          "data_store_region = \"us\"" = true) by decide),
      if_pos (show strContainsSub "data_store_region=\"us\""
          "data_store_region=\"us\"" = true by decide)]
    exact replaceAll_self _ _ (show ("data_store_region=\"us\"" : String) ≠ ""
      by decide)
  · unfold transformContent
    rw [if_neg (show ¬(strContainsSub "data-store-region=\"us\"" "us-central1"
          = true) by decide),
      if_neg (show ¬(strContainsSub "data-store-region=\"us\""
          "data_store_region = \"us\"" = true) by decide),
      if_neg (show ¬(strContainsSub "data-store-region=\"us\""
          "data_store_region=\"us\"" = true) by decide),
      if_pos (show strContainsSub "data-store-region=\"us\""
          "data-store-region=\"us\"" = true by decide)]
    exact replaceAll_self _ _ (show ("data-store-region=\"us\"" : String) ≠ ""
      by decide)
  · unfold transformContent
    rw [if_neg (show ¬(strContainsSub "_DATA_STORE_REGION: us" "us-central1"
          = true) by decide),
      if_neg (show ¬(strContainsSub "_DATA_STORE_REGION: us"
          "data_store_region = \"us\"" = true) by decide),
      if_neg (show ¬(strContainsSub "_DATA_STORE_REGION: us"
          "data_store_region=\"us\"" = true) by decide),
      if_neg (show ¬(strContainsSub "_DATA_STORE_REGION: us"
          "data-store-region=\"us\"" = true) by decide),
      if_pos (show strContainsSub "_DATA_STORE_REGION: us"
          "_DATA_STORE_REGION: us" = true by decide)]
    exact replaceAll_self _ _ (show ("_DATA_STORE_REGION: us" : String) ≠ ""
      by decide)

/-- Witness for C7 on concrete regions and a concrete eligible file. -/
theorem c7_region_substitution_witness :
    dataStoreRegion "europe-west4" = "eu" ∧
    dataStoreRegion "us-west1" = "us" ∧
    dataStoreRegion "asia-northeast1" = "global" ∧
    transformContent "europe-west4" "data_store_region = \"us\"" =
      "data_store_region = \"" ++ dataStoreRegion "europe-west4" ++ "\"" := by
  refine ⟨(c7_region_substitution "europe-west4").2.1 (by decide),
          (c7_region_substitution "us-west1").1 (by decide),
          (c7_region_substitution "asia-northeast1").2.2.1 (by decide) (by decide),
          (c7_region_substitution "europe-west4").2.2.2.2.2.1⟩

/-- C9: the GitHub-connection authorization wait is bounded and correct —
    it looks at no poll beyond the fixed cap of `maxRetries = 30` attempts
    (with the fixed `pollSleepSeconds = 10` second sleep between pending
    polls); if every poll within the cap is still pending it raises
    `TimeoutError`; and if some poll reaches `COMPLETE` (after only pending
    polls) with the credential fields present it returns the secret id
    extracted from the OAuth token secret version together with the app
    installation id. -/
theorem c9_connection_wait_bounded :
    maxRetries = 30 ∧ pollSleepSeconds = 10 ∧
    ∀ polls polls2 : Nat → PollR,
      ((∀ i, i < maxRetries → polls i = polls2 i) →
        create_github_connection_wait polls =
          create_github_connection_wait polls2) ∧
      ((∀ i, i < maxRetries → isPending (polls i)) →
        create_github_connection_wait polls = .error .timeoutError) ∧
      (∀ (k : Nat) (o b sid : String),
        k < maxRetries →
        (∀ i, i < k → isPending (polls i)) →
        polls k = .parsed (some "COMPLETE") (some o) (some b) →
        o ≠ "" → b ≠ "" → extractSecretId o = .ok sid →
        create_github_connection_wait polls = .ok (sid, b)) := by
  refine ⟨rfl, rfl, ?_⟩
  intro polls polls2
  refine ⟨?_, ?_, ?_⟩
  · intro h
    exact pollLoop_congr polls polls2 maxRetries 0
      (fun i h1 h2 => h i (by omega))
  · intro h
    exact pollLoop_pending_timeout polls maxRetries 0
      (fun i h1 h2 => h i (by omega))
  · intro k o b sid hk hpend hc ho hb hex
    refine pollLoop_complete polls k maxRetries 0 o b sid hk
      (fun i h1 h2 => hpend i (by omega)) ?_ ho hb hex
    rw [Nat.zero_add]
    exact hc

/-- Witness for C9: an always-pending sequence times out, and an immediately
    complete poll returns the extracted credentials. -/
theorem c9_connection_wait_bounded_witness :
    create_github_connection_wait
      (fun _ => .parsed (some "PENDING_USER_OAUTH") none none) =
      .error .timeoutError ∧
    create_github_connection_wait
      (fun _ => .parsed (some "COMPLETE")
        (some "projects/p/secrets/sid0/versions/1") (some "12345")) =
      .ok ("sid0", "12345") := by
  constructor
  · exact (c9_connection_wait_bounded.2.2
      (fun _ => .parsed (some "PENDING_USER_OAUTH") none none)
      (fun _ => .parsed (some "PENDING_USER_OAUTH") none none)).2.1
      (fun i _ => ⟨none, none, Or.inl rfl⟩)
  · exact (c9_connection_wait_bounded.2.2
      (fun _ => .parsed (some "COMPLETE")
        (some "projects/p/secrets/sid0/versions/1") (some "12345"))
      (fun _ => .parsed (some "COMPLETE")
        (some "projects/p/secrets/sid0/versions/1") (some "12345"))).2.2
      0 "projects/p/secrets/sid0/versions/1" "12345" "sid0" (by decide)
      (fun i hi => absurd hi (by omega)) rfl (by decide) (by decide) rfl

/-- C5: when a deployment target is given, after the rendered project is
    moved into place `process_template` ends in the lock stage, which looks
    up the file named `uv-{agent}-{deployment_target}.lock` in the lock
    directory; if it is missing the run fails with `FileNotFoundError`,
    otherwise the file lands in the project as `uv.lock` with every
    occurrence of the `cookiecutter.project_name` placeholder replaced by
    the real project name (and nothing else in the tree changes). -/
theorem c5_lock_file_stage :
    ∀ (w : World) (agentName projectName t : String) (fsR : Fs),
      t ≠ "" →
      (w.lockDir (lockFileName agentName t) = none →
        ∃ m, lockStage w agentName projectName (some t) fsR =
          .error (.fileNotFoundError m)) ∧
      (∀ content, w.lockDir (lockFileName agentName t) = some content →
        lockStage w agentName projectName (some t) fsR =
          .ok (fsSet fsR ["uv.lock"]
            (replaceAll content lockPlaceholder projectName)) ∧
        ∀ q, q ≠ ["uv.lock"] →
          (fsSet fsR ["uv.lock"]
            (replaceAll content lockPlaceholder projectName)) q = fsR q) ∧
      (∀ (fs1 : Fs) (pr : Fs × CookiecutterConfig) (fsR2 : Fs) (idi : Bool),
        composePasses w agentName (some t) idi = .ok fs1 →
        validateConfig w (some t) = .ok () →
        prepareRender w agentName (some t) idi fs1 = .ok pr →
        w.render pr.2 pr.1 = some fsR2 →
        process_template w agentName projectName (some t) idi =
          lockStage w agentName projectName (some t) fsR2) := by
  intro w a p t fsR ht
  have hdt : dtTruthy (some t) = true := by simp [dtTruthy, ht]
  refine ⟨?_, ?_, ?_⟩
  · intro hnone
    refine ⟨"Lock file not found: " ++ lockFileName a t, ?_⟩
    unfold lockStage
    rw [if_pos hdt]
    simp only [Option.getD_some, hnone]
  · intro content hsome
    constructor
    · unfold lockStage
      rw [if_pos hdt]
      simp only [Option.getD_some, hsome]
    · intro q hq
      exact fsSet_other fsR ["uv.lock"] _ q hq
  · intro fs1 pr fsR2 idi h1 h2 h3 h4
    simp only [process_template, h1, h2, h3, h4]

/-- Witness for C5: without the lock file the stage fails with
    `FileNotFoundError`; with it, `uv.lock` holds the rewritten content. -/
theorem c5_lock_file_stage_witness :
    (∃ m, lockStage wNoLocks "myagent" "proj" (some "cloud_run") emptyFs =
      .error (.fileNotFoundError m)) ∧
    lockStage wWithLock "myagent" "proj" (some "cloud_run") emptyFs =
      .ok (fsSet emptyFs ["uv.lock"]
        (replaceAll "lockdata" lockPlaceholder "proj")) := by
  constructor
  · exact (c5_lock_file_stage wNoLocks "myagent" "proj" "cloud_run" emptyFs
      (by decide)).1 rfl
  · exact ((c5_lock_file_stage wWithLock "myagent" "proj" "cloud_run" emptyFs
      (by decide)).2.1 "lockdata" rfl).1

/-- C2: for an agent whose manifest declares the deployment targets
    (normalizing a plain string to a one-element list), invoking
    `process_template` with a non-empty deployment target that is not among
    them raises a `ValueError` — the run fails before rendering or moving
    any output.  (The manifest is assumed well-formed: `settings` is a
    mapping and `frontend_type`, when present, is a string.) -/
theorem c2_invalid_deployment_target :
    ∀ (w : World) (agentName projectName t : String) (idi : Bool)
      (cm sm : List (String × YVal)) (tv : YVal) (targets : List YVal),
      w.templateConfig = .parsed (.map cm) →
      List.lookup "settings" cm = some (.map sm) →
      List.lookup "deployment_targets" sm = some tv →
      normalizeTargets tv = .list targets →
      targets.any (fun e => match e with | .str s => s == t | _ => false)
        = false →
      t ≠ "" →
      (List.lookup "frontend_type" sm = none ∨
        ∃ fstr, List.lookup "frontend_type" sm = some (.str fstr)) →
      ∃ m, process_template w agentName projectName (some t) idi =
        .error (.valueError m) := by
  intro w a p t idi cm sm tv targets hcfg hs htv hnorm hmem ht hft
  obtain ⟨fs1, h1⟩ := composePasses_isOk w a (some t) idi cm sm hcfg hs hft
  have h2 := validateConfig_rejects w t cm sm tv targets hcfg hs htv hnorm
    hmem ht
  refine ⟨"Invalid deployment target " ++ t, ?_⟩
  simp only [process_template, h1, h2]

/-- Witness for C2: the fixture manifest lists only `cloud_run`; requesting
    `agent_engine` fails with a `ValueError`. -/
theorem c2_invalid_deployment_target_witness :
    ∃ m, process_template wTargets "myagent" "proj" (some "agent_engine")
      false = .error (.valueError m) := by
  exact c2_invalid_deployment_target wTargets "myagent" "proj" "agent_engine"
    false manifestTargets [("deployment_targets", .list [.str "cloud_run"])]
    (.list [.str "cloud_run"]) [.str "cloud_run"]
    rfl rfl rfl rfl rfl (by decide) (Or.inl rfl)

/-- C6: the data-ingestion module is included exactly when the user opted in
    or the manifest requires it.  The flag recorded in the render context is
    literally `include_data_ingestion or requires_data_ingestion`; when the
    manifest sets `requires_data_ingestion` truthy, every file of the
    data-ingestion module tree lands under `data_ingestion/` in the composed
    output even when `include_data_ingestion` was not requested; and when
    neither holds, `prepareRender` copies nothing. -/
theorem c6_data_ingestion_inclusion :
    ∀ (w : World) (agentName : String) (dt : Option String) (idi : Bool)
      (fs1 fs2 : Fs) (cc : CookiecutterConfig)
      (cm sm : List (String × YVal)) (rv : YVal) (t : FsTree)
      (rel : List String) (c : String),
      w.templateConfig = .parsed (.map cm) →
      List.lookup "settings" cm = some (.map sm) →
      List.lookup "requires_data_ingestion" sm = some rv →
      prepareRender w agentName dt idi fs1 = .ok (fs2, cc) →
      cc.data_ingestion = (idi || truthy rv) ∧
      (truthy rv = true →
        w.dataIngestionDir = some t →
        provides w.dataIngestionPath t none rel = some c →
        fs2 ("data_ingestion" :: rel) = some c) ∧
      (idi = false → truthy rv = false → ∀ q, fs2 q = fs1 q) := by
  intro w a dt idi fs1 fs2 cc cm sm rv t rel c hcfg hs hrv hpr
  have hcm : cm ≠ [] := lookup_ne_nil "settings" cm (.map sm) hs
  have hload : load_template_config w.templateConfig = .map cm := by
    rw [hcfg]
    exact load_template_config_map cm hcm
  have hreq : yGetSettingsKey (load_template_config w.templateConfig)
      "requires_data_ingestion" (.bool false) = .ok rv := by
    rw [hload, yGetSettingsKey_map cm sm _ _ hs, hrv]
    rfl
  obtain ⟨hfs2, hcc⟩ := prepareRender_ok_shape w a dt idi fs1 fs2 cc rv hreq hpr
  refine ⟨hcc, ?_, ?_⟩
  · intro htrue hdi hp
    rw [hfs2, if_pos (by simp [htrue])]
    unfold copy_data_ingestion_files
    rw [hdi]
    have hw := copy_files_overwrite w.dataIngestionPath t ["data_ingestion"]
      none fs1 rel c hp
    simpa using hw
  · intro hidi hfalse q
    rw [hfs2, if_neg (by simp [hidi, hfalse])]

/-- Witness for C6: the fixture manifest requires data ingestion, so without
    `--include-data-ingestion` the pipeline file is present in the composed
    tree and the context flag is on. -/
theorem c6_data_ingestion_inclusion_witness :
    ∃ (fs2 : Fs) (cc : CookiecutterConfig),
      prepareRender wRequiresDI "myagent" none false emptyFs = .ok (fs2, cc) ∧
      fs2 ["data_ingestion", "pipeline.py"] = some "P" ∧
      cc.data_ingestion = true := by
  refine ⟨_, _, rfl, ?_, ?_⟩
  · exact (c6_data_ingestion_inclusion wRequiresDI "myagent" none false
      emptyFs _ _ manifestRequiresDI
      [("requires_data_ingestion", .bool true)] (.bool true) ingestionTree
      ["pipeline.py"] "P" rfl rfl rfl rfl).2.1 rfl rfl (by decide)
  · have h := (c6_data_ingestion_inclusion wRequiresDI "myagent" none false
      emptyFs _ _ manifestRequiresDI
      [("requires_data_ingestion", .bool true)] (.bool true) ingestionTree
      ["pipeline.py"] "P" rfl rfl rfl rfl).1
    rw [h]
    rfl

/-- C1: the agent-specific override layer (pass 5) takes precedence over
    every earlier pass.  For every folder `f` of `OVERWRITE_FOLDERS` and
    every file the agent's `f` folder supplies (skip predicate applied) at
    `f :: rel`, a successful composition yields the agent's contents
    verbatim at that path, both right after the passes and in the tree
    handed to the renderer — regardless of what the base template,
    deployment overlay, data-ingestion module or frontend put there
    earlier. -/
theorem c1_agent_override_wins :
    ∀ (w : World) (agentName : String) (dt : Option String) (idi : Bool)
      (fs1 fs2 : Fs) (cc : CookiecutterConfig) (f : String) (t : FsTree)
      (rel : List String) (c : String),
      w.agentPathExists = true →
      f ∈ OVERWRITE_FOLDERS →
      w.agentFolders f = some t →
      provides (w.agentFolderPath f) t (some agentName) rel = some c →
      composePasses w agentName dt idi = .ok fs1 →
      prepareRender w agentName dt idi fs1 = .ok (fs2, cc) →
      fs1 (f :: rel) = some c ∧ fs2 (f :: rel) = some c := by
  intro w a dt idi fs1 fs2 cc f t rel c hape hf ht hp h1 h2
  obtain ⟨fs4, hshape⟩ := composePasses_ok_shape w a dt idi fs1 hape h1
  have hnodup : OVERWRITE_FOLDERS.Nodup := by decide
  have hwrite : pass5 w a fs4 (f :: rel) = some c :=
    pass5Go_writes w a OVERWRITE_FOLDERS fs4 f t rel c hnodup hf ht hp
  have hf1 : fs1 (f :: rel) = some c := by
    rw [hshape]
    cases hreadme : w.agentReadme with
    | none => exact hwrite
    | some rc =>
      dsimp only
      rw [fsSet_other]
      · exact hwrite
      · intro hq
        have hff : f = "agent_README.md" := by injection hq
        rw [hff] at hf
        exact absurd hf (by decide)
  refine ⟨hf1, ?_⟩
  cases hreq : yGetSettingsKey (load_template_config w.templateConfig)
      "requires_data_ingestion" (.bool false) with
  | error e =>
    simp only [prepareRender, hreq] at h2
    exact absurd h2 (by simp)
  | ok req =>
    obtain ⟨hfs2, _⟩ := prepareRender_ok_shape w a dt idi fs1 fs2 cc req hreq h2
    rw [hfs2]
    by_cases hdi : (idi || truthy req) = true
    · rw [if_pos hdi]
      unfold copy_data_ingestion_files
      cases hdid : w.dataIngestionDir with
      | none => exact hf1
      | some dtree =>
        have hunch : copy_files w.dataIngestionPath dtree ["data_ingestion"]
            none true fs1 (f :: rel) = fs1 (f :: rel) := by
          by_contra hne
          obtain ⟨tail, htail⟩ := copy_files_localized w.dataIngestionPath
            dtree ["data_ingestion"] none true fs1 _ hne
          rw [List.singleton_append] at htail
          have hfd : f = "data_ingestion" := by injection htail
          rw [hfd] at hf
          exact absurd hf (by decide)
        dsimp only
        rw [hunch]
        exact hf1
    · rw [if_neg hdi]
      exact hf1

/-- Witness for C1: base template and agent both supply `app/agent.py`; the
    composed tree holds the agent's version. -/
theorem c1_agent_override_wins_witness :
    ∃ (fs1 fs2 : Fs) (cc : CookiecutterConfig),
      composePasses wOverride "myagent" none false = .ok fs1 ∧
      prepareRender wOverride "myagent" none false fs1 = .ok (fs2, cc) ∧
      fs1 ["app", "agent.py"] = some "AGENT" ∧
      fs2 ["app", "agent.py"] = some "AGENT" := by
  refine ⟨_, _, _, rfl, rfl, ?_, ?_⟩
  · exact (c1_agent_override_wins wOverride "myagent" none false _ _ _
      "app" agentAppTree ["agent.py"] "AGENT" rfl (by decide) rfl (by decide)
      rfl rfl).1
  · exact (c1_agent_override_wins wOverride "myagent" none false _ _ _
      "app" agentAppTree ["agent.py"] "AGENT" rfl (by decide) rfl (by decide)
      rfl rfl).2
